import Mathlib

/-!
Event dispatcher registry (pkg/events/event_dispatcher.go)

A shallow embedding of the `EventDispatcher` type and its operations
`NewEventDispatcher`, `Register`, `Clear`, `Has`, `Dispatch` and `Remove`.

Modelling choices.

* The Go map `map[string][]EventHandlerInterface` is a finite partial function from
  names to slices; it is embedded as `String → Option (List H)`, `none` meaning that
  the key is absent.  A slice is embedded as the list of its elements.
* `EventHandlerInterface` and `EventInterface` are declared outside the files at hand;
  the handler type `H` and the event type `E` are therefore parameters.
* The comparison `h == handler` of two interface values is a parameter `eq` of
  `RegisterBy`, `HasBy` and `RemoveBy`: Go's `==` need not be reflexive (a handler held
  by value with a NaN field is not equal to itself).  `GoHandler` with `goEq` gives the
  interface values themselves: nil, a pointer, or a struct held by value, each with its
  dynamic type.  `Register`, `Has` and `Remove` are the same methods on a handler type
  whose `==` is a lawful equality, such as the pointer handlers of the package's tests.
  Handlers of a dynamic type that is not comparable, on which `==` panics, are outside
  the model.
* A Go `error` result is `Option Error`, with `none` for `nil`.
* `Dispatch` calls `Handle` synchronously.  `DispatchIn` is the method for `Handle`
  calls that work on the memory (the wait-group counter, the cells of the array being
  ranged over, the dispatcher) and that return, block or panic.  `Dispatch` is the
  method for handlers that return and touch only the counter, with `Handle` a function
  `H → E → Int → Int` on it (`DispatchIn_liftHandle` relates the two), and
  `DispatchBlocking` the method for such handlers when a call may never return.
-/

namespace Events

/-- The error values of the package. -/
inductive Error where
  | ErrEventAlreadyRegistered
  deriving DecidableEq, Repr

/-- The type of the `handlers` field: `map[string][]EventHandlerInterface`. -/
abbrev HandlerMap (H : Type) : Type := String → Option (List H)

/-- The struct `EventDispatcher`. -/
structure EventDispatcher (H : Type) where
  handlers : HandlerMap H

/-- The expression `make(map[string][]EventHandlerInterface)`: a map without keys. -/
def makeMap (H : Type) : HandlerMap H := fun _ => none

/-- The comma-ok test `_, ok := m[k]`: is `k` a key of `m`. -/
def commaOk {H : Type} (m : HandlerMap H) (k : String) : Bool := (m k).isSome

/-- The index expression `m[k]`: the stored slice, or the nil slice for an absent key. -/
def index {H : Type} (m : HandlerMap H) (k : String) : List H := (m k).getD []

/-- The assignment `m[k] = v`. -/
def mapSet {H : Type} (m : HandlerMap H) (k : String) (v : List H) : HandlerMap H :=
  fun k2 => if k2 = k then some v else m k2

/-- The function `NewEventDispatcher`. -/
def NewEventDispatcher (H : Type) : EventDispatcher H := ⟨makeMap H⟩

/-- The loop `for _, h := range s { if h == handler { return ... } }` of `Register`
and `Has`, with the comparison `h == handler` of two interface values as the parameter
`eq` (stored element first): `true` when the body returns from inside the loop. -/
def rangeFindsBy {H : Type} (eq : H → H → Bool) (handler : H) : List H → Bool
  | [] => false
  | h :: rest => if eq h handler then true else rangeFindsBy eq handler rest

/-- The method `Register` with `==` given by `eq`: the dispatcher after the call and the
returned error. -/
def RegisterBy {H : Type} (eq : H → H → Bool) (ed : EventDispatcher H) (eventName : String)
    (handler : H) : EventDispatcher H × Option Error :=
  if commaOk ed.handlers eventName
      && rangeFindsBy eq handler (index ed.handlers eventName) then
    (ed, some Error.ErrEventAlreadyRegistered)
  else
    (⟨mapSet ed.handlers eventName (index ed.handlers eventName ++ [handler])⟩, none)

/-- The method `Clear`. -/
def Clear {H : Type} (_ed : EventDispatcher H) : EventDispatcher H := ⟨makeMap H⟩

/-- The method `Has` with `==` given by `eq`. -/
def HasBy {H : Type} (eq : H → H → Bool) (ed : EventDispatcher H) (eventName : String)
    (handler : H) : Bool :=
  if commaOk ed.handlers eventName
      && rangeFindsBy eq handler (index ed.handlers eventName) then
    true
  else
    false

/-- The expression `append(s[:k], s[k+1:]...)`. -/
def spliceOut {H : Type} (s : List H) (k : Nat) : List H := s.take k ++ s.drop (k + 1)

/-- The loop `for k, h := range s { if h == handler { ...; return nil } }` of `Remove`
with `==` given by `eq`, entered at index `k` with `rest` the elements still to visit: the
slice assigned to the map entry when the body is reached, `none` when the loop runs to
its end. -/
def removeLoopBy {H : Type} (eq : H → H → Bool) (s : List H) (handler : H) :
    Nat → List H → Option (List H)
  | _, [] => none
  | k, h :: rest =>
    if eq h handler then some (spliceOut s k) else removeLoopBy eq s handler (k + 1) rest

/-- The method `Remove` with `==` given by `eq`: the dispatcher after the call and the
returned error. -/
def RemoveBy {H : Type} (eq : H → H → Bool) (ed : EventDispatcher H) (eventName : String)
    (handler : H) : EventDispatcher H × Option Error :=
  if commaOk ed.handlers eventName then
    match removeLoopBy eq (index ed.handlers eventName) handler 0
        (index ed.handlers eventName) with
    | some s => (⟨mapSet ed.handlers eventName s⟩, none)
    | none => (ed, none)
  else
    (ed, none)

/-- The comparison `==` on a handler type where it is a lawful equality, such as the
pointer handlers of the package's tests. -/
def lawfulEq {H : Type} [DecidableEq H] : H → H → Bool := fun a b => decide (a = b)

/-- The loop of `Register` and `Has` on a handler type with lawful `==`. -/
def rangeFinds {H : Type} [DecidableEq H] (handler : H) (s : List H) : Bool :=
  rangeFindsBy lawfulEq handler s

/-- The method `Register` on a handler type with lawful `==`. -/
def Register {H : Type} [DecidableEq H] (ed : EventDispatcher H) (eventName : String)
    (handler : H) : EventDispatcher H × Option Error :=
  RegisterBy lawfulEq ed eventName handler

/-- The method `Has` on a handler type with lawful `==`. -/
def Has {H : Type} [DecidableEq H] (ed : EventDispatcher H) (eventName : String)
    (handler : H) : Bool :=
  HasBy lawfulEq ed eventName handler

/-- The loop of `Remove` on a handler type with lawful `==`. -/
def removeLoop {H : Type} [DecidableEq H] (s : List H) (handler : H) (k : Nat)
    (rest : List H) : Option (List H) :=
  removeLoopBy lawfulEq s handler k rest

/-- The method `Remove` on a handler type with lawful `==`. -/
def Remove {H : Type} [DecidableEq H] (ed : EventDispatcher H) (eventName : String)
    (handler : H) : EventDispatcher H × Option Error :=
  RemoveBy lawfulEq ed eventName handler

/-- What one run of the loop of `Dispatch` has done so far: the wait-group counter, the
`Handle` invocations made (oldest first), and the counter values seen after each
`wg.Add(1)` and after each `Handle` call returned. -/
structure DispatchRun (H E : Type) where
  wg : Int
  calls : List (H × E)
  trace : List Int

/-- The loop `for _, handler := range handlers { wg.Add(1); handler.Handle(event, wg) }`
for handlers whose `Handle` call returns and touches only the wait-group counter. -/
def dispatchLoop {H E : Type} (Handle : H → E → Int → Int) (event : E) :
    List H → DispatchRun H E → DispatchRun H E
  | [], run => run
  | handler :: rest, run =>
    let added := run.wg + 1
    let handled := Handle handler event added
    dispatchLoop Handle event rest
      ⟨handled, run.calls ++ [(handler, event)], run.trace ++ [added, handled]⟩

/-- The method `Dispatch` for handlers whose `Handle` call returns and touches only the
wait-group counter: the dispatcher after the call (the method writes nothing to the
`handlers` field), the returned error, and the run of its loop (the empty run when the
name is not a key). -/
def Dispatch {H E : Type} (GetName : E → String) (Handle : H → E → Int → Int)
    (ed : EventDispatcher H) (event : E) : EventDispatcher H × Option Error × DispatchRun H E :=
  if commaOk ed.handlers (GetName event) then
    (ed, none, dispatchLoop Handle event (index ed.handlers (GetName event)) ⟨0, [], []⟩)
  else
    (ed, none, ⟨0, [], []⟩)

/-- A call of one of the five methods. -/
inductive Call (H E : Type) where
  | register (eventName : String) (handler : H)
  | remove (eventName : String) (handler : H)
  | clear
  | has (eventName : String) (handler : H)
  | dispatch (event : E)

/-- The dispatcher after one call. -/
def step {H E : Type} [DecidableEq H] (GetName : E → String) (Handle : H → E → Int → Int)
    (ed : EventDispatcher H) : Call H E → EventDispatcher H
  | Call.register eventName handler => (Register ed eventName handler).1
  | Call.remove eventName handler => (Remove ed eventName handler).1
  | Call.clear => Clear ed
  | Call.has _ _ => ed
  | Call.dispatch event => (Dispatch GetName Handle ed event).1

/-- The dispatcher after a finite sequence of calls, starting from `ed`. -/
def runFrom {H E : Type} [DecidableEq H] (GetName : E → String) (Handle : H → E → Int → Int)
    (ed : EventDispatcher H) (calls : List (Call H E)) : EventDispatcher H :=
  calls.foldl (step GetName Handle) ed

/-- The dispatcher reached from `NewEventDispatcher()` by a finite sequence of calls. -/
def run {H E : Type} [DecidableEq H] (GetName : E → String) (Handle : H → E → Int → Int)
    (calls : List (Call H E)) : EventDispatcher H :=
  runFrom GetName Handle (NewEventDispatcher H) calls

/-- The no-duplicate predicate: under every name the stored slice has no two equal
handlers. -/
def NoDuplicates {H : Type} (ed : EventDispatcher H) : Prop :=
  ∀ name : String, (index ed.handlers name).Nodup

/-- A wait-group behaviour used in examples: the handler calls `wg.Done()` once. -/
def doneOnce : Nat → String → Int → Int := fun _ _ c => c - 1

/-- A wait-group behaviour used in examples: the handler returns from `Handle` without
having called `wg.Done()`. -/
def neverDone : Nat → String → Int → Int := fun _ _ c => c

/-- The loop of `Dispatch` for handlers whose `Handle` call may never return: `Handle`
gives `none` for such a call.  The statement `handler.Handle(event, wg)` is a plain call,
so the loop gets no further than a call that does not return.  The result is the
`Handle` invocations begun (oldest first) and the wait-group counter when the loop runs
to its end, `none` when it never does. -/
def dispatchLoopBlocking {H E : Type} (Handle : H → E → Int → Option Int) (event : E) :
    List H → Int → List (H × E) → List (H × E) × Option Int
  | [], wg, calls => (calls, some wg)
  | handler :: rest, wg, calls =>
    match Handle handler event (wg + 1) with
    | some handled => dispatchLoopBlocking Handle event rest handled (calls ++ [(handler, event)])
    | none => (calls ++ [(handler, event)], none)

/-- The method `Dispatch` for handlers whose `Handle` call may never return: the
invocations begun, and the returned error when the method returns (`some none` is a
returned `nil`, `none` is a call of `Dispatch` that never returns). -/
def DispatchBlocking {H E : Type} (GetName : E → String) (Handle : H → E → Int → Option Int)
    (ed : EventDispatcher H) (event : E) : List (H × E) × Option (Option Error) :=
  if commaOk ed.handlers (GetName event) then
    match dispatchLoopBlocking Handle event (index ed.handlers (GetName event)) 0 [] with
    | (calls, some _) => (calls, some none)
    | (calls, none) => (calls, none)
  else
    ([], some none)

/-- An example behaviour: handler `1` never returns from `Handle`, every other handler
calls `wg.Done()` once and returns. -/
def firstBlocks : Nat → String → Int → Option Int :=
  fun h _ c => if h = 1 then none else some (c - 1)

/-- The dispatcher after one call, with `==` given by `eq`.  `Dispatch` itself writes
nothing to the `handlers` field; what a handler does to the dispatcher during a `Handle`
call it does through calls of these methods. -/
def stepBy {H E : Type} (eq : H → H → Bool) (GetName : E → String)
    (Handle : H → E → Int → Int) (ed : EventDispatcher H) : Call H E → EventDispatcher H
  | Call.register eventName handler => (RegisterBy eq ed eventName handler).1
  | Call.remove eventName handler => (RemoveBy eq ed eventName handler).1
  | Call.clear => Clear ed
  | Call.has _ _ => ed
  | Call.dispatch event => (Dispatch GetName Handle ed event).1

/-- The dispatcher reached from `NewEventDispatcher()` by a finite sequence of calls, with
`==` given by `eq`. -/
def runBy {H E : Type} (eq : H → H → Bool) (GetName : E → String)
    (Handle : H → E → Int → Int) (calls : List (Call H E)) : EventDispatcher H :=
  calls.foldl (stepBy eq GetName Handle) (NewEventDispatcher H)

/-- The no-equal-pair predicate for `==` given by `eq`: under every name, no stored
handler compares equal to one stored after it. -/
def NoEqualPair {H : Type} (eq : H → H → Bool) (ed : EventDispatcher H) : Prop :=
  ∀ name : String, (index ed.handlers name).Pairwise (fun a b => eq a b = false)

/-- A field of a handler struct: a number, or a floating-point NaN. -/
inductive FieldValue where
  | num (n : Nat)
  | nan
  deriving DecidableEq, Repr

/-- Go's `==` on two fields: a NaN is equal to nothing, itself included. -/
def fieldEq : FieldValue → FieldValue → Bool
  | FieldValue.num a, FieldValue.num b => decide (a = b)
  | _, _ => false

/-- Go's `==` on the fields of two structs of one type: every pair of fields is equal. -/
def fieldsEq : List FieldValue → List FieldValue → Bool
  | [], [] => true
  | a :: as, b :: bs => fieldEq a b && fieldsEq as bs
  | _, _ => false

/-- Modelled from the spec: the declaration of `EventHandlerInterface` is not among the
source files; the spec gives a handler the single capability
`handle(event, completionSignal)`.  A value of that interface type is nil, or has a
dynamic type and a dynamic value: a pointer to a handler struct of type `typ` (the
address), or a handler struct of type `typ` held by value (its fields).  Handlers whose
dynamic type is not comparable, on which `==` panics, are left out. -/
inductive GoHandler where
  | nilHandler
  | pointer (typ : String) (addr : Nat)
  | value (typ : String) (fields : List FieldValue)
  deriving DecidableEq, Repr

/-- Go's `==` on interface values: both nil, or identical dynamic types and equal dynamic
values; two pointers are equal when they are the same address, two structs when all
their fields are equal. -/
def goEq : GoHandler → GoHandler → Bool
  | GoHandler.nilHandler, GoHandler.nilHandler => true
  | GoHandler.pointer t a, GoHandler.pointer u b => decide (t = u) && decide (a = b)
  | GoHandler.value t fs, GoHandler.value u gs => decide (t = u) && fieldsEq fs gs
  | _, _ => false

/-- A handler instance in the caller's memory: its struct type, where it is allocated,
and its internal state. -/
structure HandlerInstance where
  typ : String
  addr : Nat
  fields : List FieldValue
  deriving DecidableEq, Repr

/-- The interface value a call site hands to `Register`, `Has` and `Remove` for a handler
instance: `&inst` when `viaPointer`, a copy of `inst` otherwise. -/
def handedOver (viaPointer : Bool) (inst : HandlerInstance) : GoHandler :=
  if viaPointer then GoHandler.pointer inst.typ inst.addr
  else GoHandler.value inst.typ inst.fields

/-- Two interface values are distinct registrations under `N`: on a new dispatcher
`Register N v1` followed by `Register N v2` both return nil, the slice under `N` then
holds two entries, and `Has N v2` is false while only `v1` is registered. -/
def DistinctRegistrations (N : String) (v1 v2 : GoHandler) : Prop :=
  (RegisterBy goEq (NewEventDispatcher GoHandler) N v1).2 = none ∧
  (RegisterBy goEq (RegisterBy goEq (NewEventDispatcher GoHandler) N v1).1 N v2).2 = none ∧
  (index (RegisterBy goEq (RegisterBy goEq (NewEventDispatcher GoHandler) N v1).1 N
    v2).1.handlers N).length = 2 ∧
  HasBy goEq (RegisterBy goEq (NewEventDispatcher GoHandler) N v1).1 N v2 = false

/-- A handler held by value in a struct with one floating-point field that is NaN. -/
def nanHandler : GoHandler := GoHandler.value "FloatH" [FieldValue.nan]

/-- How a `Handle` call ends: it returns, leaving the memory `m`; it never returns; or
it panics (as every method call on a nil interface value does). -/
inductive Outcome (M : Type) where
  | returned (m : M)
  | blocked
  | panicked

/-- The memory a `Handle` call of `Dispatch` works on: the counter of the wait group it
is passed, the elements currently in the cells of the array that the loop of `Dispatch`
ranges over (the slice `handlers` read at line 53; a call of `Remove` or `Register` from
inside `Handle` writes to that array in place), and the dispatcher. -/
structure Memory (H : Type) where
  wg : Int
  cells : List H
  ed : EventDispatcher H

/-- How a call of `Dispatch` ends: it returns an error value, it never returns, or it
panics. -/
inductive Completion where
  | returned (err : Option Error)
  | blocked
  | panicked
  deriving DecidableEq, Repr

/-- A call of `Dispatch` as a whole: how it ends, the `Handle` calls it reached (oldest
first), and the memory at that point. -/
structure DispatchTrace (H E : Type) where
  completion : Completion
  calls : List (H × E)
  memory : Memory H

/-- The memory left by a `Handle` call that returned, `m` otherwise. -/
def Outcome.memoryOr {M : Type} : Outcome M → M → M
  | Outcome.returned m2, _ => m2
  | Outcome.blocked, m => m
  | Outcome.panicked, m => m

/-- The loop `for _, handler := range handlers { wg.Add(1); handler.Handle(event, wg) }`
followed by `return nil`, over the indices still to visit.  The range expression is
evaluated once, so the number of iterations is fixed; iteration `i` reads cell `i` of the
array as it is then, increments the counter and calls `Handle`, a plain call: the loop
goes on only when that call returns.  (A read outside `cells` arises only for a `Handle`
that changes the number of cells, which no Go program does.) -/
def dispatchLoopIn {H E : Type} (Handle : H → E → Memory H → Outcome (Memory H))
    (event : E) : List Nat → List (H × E) → Memory H → DispatchTrace H E
  | [], calls, m => ⟨Completion.returned none, calls, m⟩
  | i :: rest, calls, m =>
    match m.cells[i]? with
    | none => ⟨Completion.panicked, calls, m⟩
    | some handler =>
      match Handle handler event ⟨m.wg + 1, m.cells, m.ed⟩ with
      | Outcome.returned m2 =>
        dispatchLoopIn Handle event rest (calls ++ [(handler, event)]) m2
      | Outcome.blocked =>
        ⟨Completion.blocked, calls ++ [(handler, event)], ⟨m.wg + 1, m.cells, m.ed⟩⟩
      | Outcome.panicked =>
        ⟨Completion.panicked, calls ++ [(handler, event)], ⟨m.wg + 1, m.cells, m.ed⟩⟩

/-- The method `Dispatch` for `Handle` calls that work on the memory and may return,
block or panic. -/
def DispatchIn {H E : Type} (GetName : E → String)
    (Handle : H → E → Memory H → Outcome (Memory H)) (ed : EventDispatcher H) (event : E) :
    DispatchTrace H E :=
  if commaOk ed.handlers (GetName event) then
    dispatchLoopIn Handle event (List.range (index ed.handlers (GetName event)).length) []
      ⟨0, index ed.handlers (GetName event), ed⟩
  else
    ⟨Completion.returned none, [], ⟨0, [], ed⟩⟩

/-- The memory after invoking `Handle(event, wg)` on every handler of `hs` in order, each
call preceded by `wg.Add(1)`: what the spec's fan-out asks of `Dispatch`. -/
def handleAll {H E : Type} (Handle : H → E → Memory H → Outcome (Memory H)) (event : E) :
    List H → Memory H → Memory H
  | [], m => m
  | h :: rest, m =>
    handleAll Handle event rest ((Handle h event ⟨m.wg + 1, m.cells, m.ed⟩).memoryOr m)

/-- A `Handle` that returns and touches only the wait-group counter, as a `Handle` on the
memory. -/
def liftHandle {H E : Type} (Handle : H → E → Int → Int) :
    H → E → Memory H → Outcome (Memory H) :=
  fun h e m => Outcome.returned ⟨Handle h e m.wg, m.cells, m.ed⟩

/-- The cells of the array after the statement
`ed.handlers[eventName] = append(ed.handlers[eventName][:k], ed.handlers[eventName][k+1:]...)`
when the map entry is the whole slice being ranged over: `append` has room in the array,
so the elements after index `k` move one cell down and the last cell keeps its element. -/
def spliceInPlace {H : Type} (cells : List H) (k : Nat) : List H :=
  spliceOut cells k ++ cells.drop (cells.length - 1)

/-- An example behaviour: handler `1`, stored first, calls `Remove(event, 1)` on the
dispatcher from inside `Handle`, then `wg.Done()`; every other handler only calls
`wg.Done()`. -/
def selfRemoving : Nat → String → Memory Nat → Outcome (Memory Nat) :=
  fun h event m =>
    if h = 1 then
      Outcome.returned ⟨m.wg - 1, spliceInPlace m.cells 0, (Remove m.ed event 1).1⟩
    else Outcome.returned ⟨m.wg - 1, m.cells, m.ed⟩

/-- The `Handle` method called through an interface value: the call panics on the nil
interface value, and otherwise the handler calls `wg.Done()` and returns. -/
def goHandle : GoHandler → String → Memory GoHandler → Outcome (Memory GoHandler)
  | GoHandler.nilHandler, _, _ => Outcome.panicked
  | _, _, m => Outcome.returned ⟨m.wg - 1, m.cells, m.ed⟩

/-! Section: Auxiliary facts about the loops and the map operations -/

theorem rangeFinds_nil {H : Type} [DecidableEq H] (handler : H) :
    rangeFinds handler [] = false := rfl

theorem rangeFinds_cons {H : Type} [DecidableEq H] (handler h : H) (rest : List H) :
    rangeFinds handler (h :: rest) = if h = handler then true else rangeFinds handler rest := by
  by_cases hh : h = handler <;> simp [rangeFinds, rangeFindsBy, lawfulEq, hh]

theorem removeLoop_nil {H : Type} [DecidableEq H] (s : List H) (handler : H) (k : Nat) :
    removeLoop s handler k [] = none := rfl

theorem removeLoop_cons {H : Type} [DecidableEq H] (s : List H) (handler h : H) (k : Nat)
    (rest : List H) :
    removeLoop s handler k (h :: rest)
      = if h = handler then some (spliceOut s k) else removeLoop s handler (k + 1) rest := by
  by_cases hh : h = handler <;> simp [removeLoop, removeLoopBy, lawfulEq, hh]

theorem Register_def {H : Type} [DecidableEq H] (ed : EventDispatcher H) (N : String) (h : H) :
    Register ed N h
      = if commaOk ed.handlers N && rangeFinds h (index ed.handlers N) then
          (ed, some Error.ErrEventAlreadyRegistered)
        else (⟨mapSet ed.handlers N (index ed.handlers N ++ [h])⟩, none) := rfl

theorem Has_def {H : Type} [DecidableEq H] (ed : EventDispatcher H) (N : String) (h : H) :
    Has ed N h
      = if commaOk ed.handlers N && rangeFinds h (index ed.handlers N) then true
        else false := rfl

theorem Remove_def {H : Type} [DecidableEq H] (ed : EventDispatcher H) (N : String) (h : H) :
    Remove ed N h
      = if commaOk ed.handlers N then
          match removeLoop (index ed.handlers N) h 0 (index ed.handlers N) with
          | some s => (⟨mapSet ed.handlers N s⟩, none)
          | none => (ed, none)
        else (ed, none) := rfl

theorem rangeFinds_iff {H : Type} [DecidableEq H] (handler : H) (s : List H) :
    rangeFinds handler s = true ↔ handler ∈ s := by
  induction s with
  | nil => simp [rangeFinds_nil]
  | cons h rest ih =>
    by_cases hh : h = handler
    · simp [rangeFinds_cons, hh]
    · have hne : ¬ handler = h := fun e => hh e.symm
      simp [rangeFinds_cons, hh, hne, ih]

theorem rangeFinds_eq_false {H : Type} [DecidableEq H] (handler : H) (s : List H)
    (hn : handler ∉ s) : rangeFinds handler s = false := by
  cases hr : rangeFinds handler s with
  | false => rfl
  | true => exact absurd ((rangeFinds_iff handler s).1 hr) hn

theorem spliceOut_append {H : Type} (pre post : List H) (h : H) :
    spliceOut (pre ++ h :: post) pre.length = pre ++ post := by
  simp [spliceOut]

theorem removeLoop_eq {H : Type} [DecidableEq H] (handler : H) (rest : List H) :
    ∀ pre : List H, removeLoop (pre ++ rest) handler pre.length rest
      = if handler ∈ rest then some (pre ++ rest.erase handler) else none := by
  induction rest with
  | nil => intro pre; simp [removeLoop_nil]
  | cons h t ih =>
    intro pre
    by_cases hh : h = handler
    · subst hh
      simp [removeLoop_cons, spliceOut_append]
    · have hne : ¬ handler = h := fun e => hh e.symm
      have hstep := ih (pre ++ [h])
      simp only [List.append_assoc, List.singleton_append, List.length_append,
        List.length_singleton] at hstep
      simp only [removeLoop_cons, hh, if_false, hstep, List.mem_cons, hne, false_or]
      rw [List.erase_cons_tail (by simpa using hh)]

theorem removeLoop_whole {H : Type} [DecidableEq H] (handler : H) (s : List H) :
    removeLoop s handler 0 s = if handler ∈ s then some (s.erase handler) else none := by
  simpa using removeLoop_eq handler s []

theorem index_of_some {H : Type} {m : HandlerMap H} {k : String} {s : List H}
    (hk : m k = some s) : index m k = s := by
  simp [index, hk]

theorem index_of_none {H : Type} {m : HandlerMap H} {k : String}
    (hk : m k = none) : index m k = [] := by
  simp [index, hk]

theorem commaOk_of_mem {H : Type} {m : HandlerMap H} {k : String} {h : H}
    (hm : h ∈ index m k) : commaOk m k = true := by
  cases hk : m k with
  | none => simp [index, hk] at hm
  | some s => simp [commaOk, hk]

theorem index_mapSet_same {H : Type} (m : HandlerMap H) (k : String) (v : List H) :
    index (mapSet m k v) k = v := by
  simp [index, mapSet]

theorem index_mapSet_other {H : Type} (m : HandlerMap H) (k k2 : String) (v : List H)
    (hne : k2 ≠ k) : index (mapSet m k v) k2 = index m k2 := by
  simp [index, mapSet, hne]

/-- What `Register` does when the handler is already in the slice. -/
theorem Register_of_mem {H : Type} [DecidableEq H] (ed : EventDispatcher H) (N : String)
    (h : H) (hm : h ∈ index ed.handlers N) :
    Register ed N h = (ed, some Error.ErrEventAlreadyRegistered) := by
  simp [Register_def, commaOk_of_mem hm, (rangeFinds_iff h _).2 hm]

/-- What `Register` does when the handler is not in the slice. -/
theorem Register_of_not_mem {H : Type} [DecidableEq H] (ed : EventDispatcher H) (N : String)
    (h : H) (hn : h ∉ index ed.handlers N) :
    Register ed N h
      = (⟨mapSet ed.handlers N (index ed.handlers N ++ [h])⟩, none) := by
  simp [Register_def, rangeFinds_eq_false h _ hn]

/-- What `Remove` does when the handler is in the slice. -/
theorem Remove_of_mem {H : Type} [DecidableEq H] (ed : EventDispatcher H) (N : String)
    (h : H) (hm : h ∈ index ed.handlers N) :
    Remove ed N h = (⟨mapSet ed.handlers N ((index ed.handlers N).erase h)⟩, none) := by
  simp [Remove_def, commaOk_of_mem hm, removeLoop_whole, hm]

/-- What `Remove` does when the handler is not in the slice. -/
theorem Remove_of_not_mem {H : Type} [DecidableEq H] (ed : EventDispatcher H) (N : String)
    (h : H) (hn : h ∉ index ed.handlers N) :
    Remove ed N h = (ed, none) := by
  rw [Remove_def]
  split
  · simp [removeLoop_whole, hn]
  · rfl

/-! Section: Register -/

/-- C1: when the slice stored under `N` already contains a handler equal to `h`,
`Register N h` returns `ErrEventAlreadyRegistered` and the dispatcher after the call is
the dispatcher before the call: every name maps to what it mapped to before. -/
theorem Register_duplicate_rejected {H : Type} [DecidableEq H] (ed : EventDispatcher H)
    (N : String) (h : H) (hm : h ∈ index ed.handlers N) :
    (Register ed N h).2 = some Error.ErrEventAlreadyRegistered ∧
    (Register ed N h).1 = ed ∧
    ∀ name : String, (Register ed N h).1.handlers name = ed.handlers name := by
  rw [Register_of_mem ed N h hm]
  exact ⟨rfl, rfl, fun _ => rfl⟩

theorem Register_duplicate_rejected_witness :
    (1 : Nat) ∈ index (Register (NewEventDispatcher Nat) "test" 1).1.handlers "test" ∧
    (Register (Register (NewEventDispatcher Nat) "test" 1).1 "test" 1).2
      = some Error.ErrEventAlreadyRegistered ∧
    (Register (Register (NewEventDispatcher Nat) "test" 1).1 "test" 1).1
      = (Register (NewEventDispatcher Nat) "test" 1).1 ∧
    ∀ name : String,
      (Register (Register (NewEventDispatcher Nat) "test" 1).1 "test" 1).1.handlers name
        = (Register (NewEventDispatcher Nat) "test" 1).1.handlers name :=
  ⟨by decide,
   Register_duplicate_rejected (Register (NewEventDispatcher Nat) "test" 1).1 "test" 1
     (by decide)⟩

/-- C2: when the slice under `N` (the nil slice when `N` is not a key) does not contain
`h`, `Register N h` returns nil and afterwards `N` maps to the previous slice with `h`
appended at the end: the length grows by one, every earlier position keeps its element
and the new last position holds `h`.  In particular, registering `h` and then a
different handler `h2` under a name that was not a key leaves `[h, h2]` under it. -/
theorem Register_appends {H : Type} [DecidableEq H] (ed : EventDispatcher H)
    (N : String) (h : H) (hn : h ∉ index ed.handlers N) :
    (Register ed N h).2 = none ∧
    (Register ed N h).1.handlers N = some (index ed.handlers N ++ [h]) ∧
    (index (Register ed N h).1.handlers N).length = (index ed.handlers N).length + 1 ∧
    (∀ i : Nat, i < (index ed.handlers N).length →
      (index (Register ed N h).1.handlers N)[i]? = (index ed.handlers N)[i]?) ∧
    (index (Register ed N h).1.handlers N)[(index ed.handlers N).length]? = some h ∧
    (∀ h2 : H, ed.handlers N = none → h2 ≠ h →
      (Register (Register ed N h).1 N h2).2 = none ∧
      (Register (Register ed N h).1 N h2).1.handlers N = some [h, h2]) := by
  rw [Register_of_not_mem ed N h hn]
  refine ⟨rfl, by simp [mapSet], by simp [index_mapSet_same], ?_, ?_, ?_⟩
  · intro i hi
    simp only [index_mapSet_same]
    exact List.getElem?_append_left hi
  · simp [index_mapSet_same]
  · intro h2 habsent hne
    have hidx : index ed.handlers N = [] := index_of_none habsent
    have hn2 : h2 ∉ index (EventDispatcher.mk
        (mapSet ed.handlers N (index ed.handlers N ++ [h]))).handlers N := by
      simp [index_mapSet_same, hidx, hne]
    rw [Register_of_not_mem _ N h2 hn2]
    simp [index_mapSet_same, hidx, mapSet]

theorem Register_appends_witness :
    (2 : Nat) ∉ index (Register (NewEventDispatcher Nat) "test" 1).1.handlers "test" ∧
    (Register (Register (NewEventDispatcher Nat) "test" 1).1 "test" 2).1.handlers "test"
      = some (index (Register (NewEventDispatcher Nat) "test" 1).1.handlers "test" ++ [2]) :=
  ⟨by decide,
   (Register_appends (Register (NewEventDispatcher Nat) "test" 1).1 "test" 2
     (by decide)).2.1⟩

/-! Section: The no-duplicate invariant -/

theorem Dispatch_fst {H E : Type} (GetName : E → String) (Handle : H → E → Int → Int)
    (ed : EventDispatcher H) (event : E) : (Dispatch GetName Handle ed event).1 = ed := by
  unfold Dispatch
  split <;> rfl

theorem noDuplicates_new (H : Type) : NoDuplicates (NewEventDispatcher H) := by
  intro name
  simp [NewEventDispatcher, makeMap, index]

theorem noDuplicates_Register {H : Type} [DecidableEq H] (ed : EventDispatcher H)
    (N : String) (h : H) (hnd : NoDuplicates ed) : NoDuplicates (Register ed N h).1 := by
  by_cases hm : h ∈ index ed.handlers N
  · rw [Register_of_mem ed N h hm]
    exact hnd
  · rw [Register_of_not_mem ed N h hm]
    intro name
    by_cases hname : name = N
    · subst hname
      simp only [index_mapSet_same]
      exact List.Nodup.append (hnd name) (List.nodup_singleton h)
        (by
          intro a ha hs
          rw [List.mem_singleton] at hs
          exact hm (hs ▸ ha))
    · simp only [index_mapSet_other _ _ _ _ hname]
      exact hnd name

theorem noDuplicates_Remove {H : Type} [DecidableEq H] (ed : EventDispatcher H)
    (N : String) (h : H) (hnd : NoDuplicates ed) : NoDuplicates (Remove ed N h).1 := by
  by_cases hm : h ∈ index ed.handlers N
  · rw [Remove_of_mem ed N h hm]
    intro name
    by_cases hname : name = N
    · subst hname
      simp only [index_mapSet_same]
      exact (hnd name).erase h
    · simp only [index_mapSet_other _ _ _ _ hname]
      exact hnd name
  · rw [Remove_of_not_mem ed N h hm]
    exact hnd

theorem noDuplicates_step {H E : Type} [DecidableEq H] (GetName : E → String)
    (Handle : H → E → Int → Int) (ed : EventDispatcher H) (call : Call H E)
    (hnd : NoDuplicates ed) : NoDuplicates (step GetName Handle ed call) := by
  cases call with
  | register eventName handler => exact noDuplicates_Register ed eventName handler hnd
  | remove eventName handler => exact noDuplicates_Remove ed eventName handler hnd
  | clear => exact noDuplicates_new H
  | has eventName handler => exact hnd
  | dispatch event =>
    show NoDuplicates (Dispatch GetName Handle ed event).1
    rw [Dispatch_fst]
    exact hnd

theorem noDuplicates_runFrom {H E : Type} [DecidableEq H] (GetName : E → String)
    (Handle : H → E → Int → Int) (calls : List (Call H E)) :
    ∀ ed : EventDispatcher H, NoDuplicates ed → NoDuplicates (runFrom GetName Handle ed calls) := by
  induction calls with
  | nil => intro ed hnd; exact hnd
  | cons call rest ih =>
    intro ed hnd
    exact ih (step GetName Handle ed call) (noDuplicates_step GetName Handle ed call hnd)

theorem noDuplicates_run {H E : Type} [DecidableEq H] (GetName : E → String)
    (Handle : H → E → Int → Int) (calls : List (Call H E)) :
    NoDuplicates (run GetName Handle calls) :=
  noDuplicates_runFrom GetName Handle calls (NewEventDispatcher H) (noDuplicates_new H)

/-- C3: the no-duplicate invariant.  The dispatcher made by `NewEventDispatcher` has no
two equal handlers under any name, each of `Register`, `Remove`, `Clear`, `Has` and
`Dispatch` preserves that, and so it holds of every dispatcher reached from
`NewEventDispatcher()` by a finite sequence of such calls. -/
theorem no_duplicate_invariant {H E : Type} [DecidableEq H] (GetName : E → String)
    (Handle : H → E → Int → Int) :
    NoDuplicates (NewEventDispatcher H) ∧
    (∀ (ed : EventDispatcher H) (call : Call H E),
      NoDuplicates ed → NoDuplicates (step GetName Handle ed call)) ∧
    (∀ (calls : List (Call H E)) (name : String),
      (index (run GetName Handle calls).handlers name).Nodup) :=
  ⟨noDuplicates_new H, fun ed call hnd => noDuplicates_step GetName Handle ed call hnd,
   fun calls name => noDuplicates_run GetName Handle calls name⟩

theorem no_duplicate_invariant_witness :
    (index (run id doneOnce
      [Call.register "test" 1, Call.register "test" 2, Call.register "test" 1,
       Call.dispatch "test", Call.remove "test" 1, Call.has "test" 2,
       Call.register "test" 1]).handlers "test") = [2, 1] ∧
    (index (run id doneOnce
      [Call.register "test" 1, Call.register "test" 2, Call.register "test" 1,
       Call.dispatch "test", Call.remove "test" 1, Call.has "test" 2,
       Call.register "test" 1]).handlers "test").Nodup :=
  ⟨by decide,
   (no_duplicate_invariant id doneOnce).2.2
     [Call.register "test" 1, Call.register "test" 2, Call.register "test" 1,
      Call.dispatch "test", Call.remove "test" 1, Call.has "test" 2,
      Call.register "test" 1] "test"⟩

/-! Section: Has -/

theorem Has_iff_mem {H : Type} [DecidableEq H] (ed : EventDispatcher H) (N : String)
    (h : H) : Has ed N h = true ↔ h ∈ index ed.handlers N := by
  constructor
  · intro hhas
    by_contra hn
    simp [Has_def, rangeFinds_eq_false h _ hn] at hhas
  · intro hm
    simp [Has_def, commaOk_of_mem hm, (rangeFinds_iff h _).2 hm]

/-- C5: `Has N h` returns true if and only if `N` is a key of the map and the slice
stored under `N` contains a handler equal to `h`.  In particular it returns false for a
name that is not a key, and for a handler that is registered under another name `M` but
not under `N`. -/
theorem Has_iff {H : Type} [DecidableEq H] (ed : EventDispatcher H) (N : String) (h : H) :
    (Has ed N h = true ↔ ∃ s : List H, ed.handlers N = some s ∧ h ∈ s) ∧
    (ed.handlers N = none → Has ed N h = false) ∧
    (∀ M : String, M ≠ N → h ∈ index ed.handlers M → h ∉ index ed.handlers N →
      Has ed N h = false) := by
  refine ⟨?_, ?_, ?_⟩
  · rw [Has_iff_mem]
    constructor
    · intro hm
      cases hk : ed.handlers N with
      | none => simp [index, hk] at hm
      | some s => exact ⟨s, rfl, by simpa [index, hk] using hm⟩
    · rintro ⟨s, hk, hm⟩
      rw [index_of_some hk]
      exact hm
  · intro hk
    simp [Has_def, commaOk, hk]
  · intro M _ _ hn
    cases hhas : Has ed N h with
    | false => rfl
    | true => exact absurd ((Has_iff_mem ed N h).1 hhas) hn

theorem Has_iff_witness :
    ("test2" ≠ "test" ∧
     (1 : Nat) ∈ index (Register (Register (NewEventDispatcher Nat) "test2" 1).1
       "test" 2).1.handlers "test2" ∧
     (1 : Nat) ∉ index (Register (Register (NewEventDispatcher Nat) "test2" 1).1
       "test" 2).1.handlers "test") ∧
    Has (Register (Register (NewEventDispatcher Nat) "test2" 1).1 "test" 2).1 "test" 1
      = false :=
  ⟨⟨by decide, by decide, by decide⟩,
   (Has_iff (Register (Register (NewEventDispatcher Nat) "test2" 1).1 "test" 2).1
     "test" 1).2.2 "test2" (by decide) (by decide) (by decide)⟩

/-! Section: Remove -/

/-- C6: when the slice under `N` contains `h`, `Remove N h` returns nil and afterwards
`N` maps to the previous slice with its first occurrence of `h` deleted: the elements
before and after that occurrence stay in their relative order, and the length shrinks by
exactly one. -/
theorem Remove_deletes_first {H : Type} [DecidableEq H] (ed : EventDispatcher H)
    (N : String) (h : H) (hm : h ∈ index ed.handlers N) :
    (Remove ed N h).2 = none ∧
    (∃ pre post : List H, index ed.handlers N = pre ++ h :: post ∧ h ∉ pre ∧
      (Remove ed N h).1.handlers N = some (pre ++ post)) ∧
    (Remove ed N h).1.handlers N = some ((index ed.handlers N).erase h) ∧
    (index (Remove ed N h).1.handlers N).length + 1 = (index ed.handlers N).length := by
  rw [Remove_of_mem ed N h hm]
  have hset : (EventDispatcher.mk
      (mapSet ed.handlers N ((index ed.handlers N).erase h))).handlers N
        = some ((index ed.handlers N).erase h) := by
    simp [mapSet]
  refine ⟨rfl, ?_, hset, ?_⟩
  · obtain ⟨pre, post, hnpre, hsplit, herase⟩ := List.exists_erase_eq hm
    exact ⟨pre, post, hsplit, hnpre, by rw [hset, herase]⟩
  · simp only [index_mapSet_same]
    rw [List.length_erase_of_mem hm]
    have hpos : 0 < (index ed.handlers N).length := List.length_pos_of_mem hm
    omega

theorem Remove_deletes_first_witness :
    (1 : Nat) ∈ index (run id doneOnce
      [Call.register "test" 1, Call.register "test" 2]).handlers "test" ∧
    (Remove (run id doneOnce [Call.register "test" 1, Call.register "test" 2])
      "test" 1).1.handlers "test"
      = some ((index (run id doneOnce
          [Call.register "test" 1, Call.register "test" 2]).handlers "test").erase 1) :=
  ⟨by decide,
   (Remove_deletes_first (run id doneOnce [Call.register "test" 1, Call.register "test" 2])
     "test" 1 (by decide)).2.2.1⟩

/-- C7: `Remove` never fails: it returns nil for every dispatcher, name and handler; and
when the name is not a key, or the slice under it does not contain the handler, the
dispatcher after the call is the dispatcher before the call. -/
theorem Remove_never_fails {H : Type} [DecidableEq H] (ed : EventDispatcher H)
    (N : String) (h : H) :
    (Remove ed N h).2 = none ∧
    (ed.handlers N = none ∨ h ∉ index ed.handlers N → (Remove ed N h).1 = ed) := by
  constructor
  · by_cases hm : h ∈ index ed.handlers N
    · rw [Remove_of_mem ed N h hm]
    · rw [Remove_of_not_mem ed N h hm]
  · intro hcase
    have hn : h ∉ index ed.handlers N := by
      rcases hcase with hk | hn
      · simp [index_of_none hk]
      · exact hn
    rw [Remove_of_not_mem ed N h hn]

theorem Remove_never_fails_witness :
    ((Register (NewEventDispatcher Nat) "test" 1).1.handlers "test2" = none ∨
      (1 : Nat) ∉ index (Register (NewEventDispatcher Nat) "test" 1).1.handlers "test2") ∧
    (Remove (Register (NewEventDispatcher Nat) "test" 1).1 "test2" 1).1
      = (Register (NewEventDispatcher Nat) "test" 1).1 :=
  ⟨Or.inl (by decide),
   (Remove_never_fails (Register (NewEventDispatcher Nat) "test" 1).1 "test2" 1).2
     (Or.inl (by decide))⟩

theorem not_mem_after_Remove {H : Type} [DecidableEq H] (ed : EventDispatcher H)
    (N : String) (h : H) (hnd : NoDuplicates ed) :
    h ∉ index (Remove ed N h).1.handlers N := by
  by_cases hm : h ∈ index ed.handlers N
  · rw [Remove_of_mem ed N h hm]
    simp only [index_mapSet_same]
    intro hstill
    exact ((hnd N).mem_erase_iff.1 hstill).1 rfl
  · rw [Remove_of_not_mem ed N h hm]
    exact hm

/-- C8: removal idempotence.  For every dispatcher reached from `NewEventDispatcher()`
by a finite sequence of calls, the dispatcher after `Remove N h; Remove N h` is the
dispatcher after a single `Remove N h`: the second call changes nothing. -/
theorem Remove_idempotent {H E : Type} [DecidableEq H] (GetName : E → String)
    (Handle : H → E → Int → Int) (calls : List (Call H E)) (N : String) (h : H) :
    (Remove (Remove (run GetName Handle calls) N h).1 N h).1
      = (Remove (run GetName Handle calls) N h).1 := by
  rw [Remove_of_not_mem _ N h
    (not_mem_after_Remove _ N h (noDuplicates_run GetName Handle calls))]

/-! Section: Clear -/

/-- C10: `Clear` resets fully.  After `Clear()` the dispatcher is the one made by
`NewEventDispatcher()`: no name is a key, so `Has N h` is false for every name and
handler, whatever was registered before the call. -/
theorem Clear_resets {H : Type} [DecidableEq H] (ed : EventDispatcher H) :
    Clear ed = NewEventDispatcher H ∧
    (∀ N : String, (Clear ed).handlers N = none) ∧
    (∀ (N : String) (h : H), Has (Clear ed) N h = false) :=
  ⟨rfl, fun _ => rfl, fun N h => by simp [Has_def, Clear, makeMap, commaOk]⟩

/-! Section: Dispatch -/

theorem dispatchLoop_calls {H E : Type} (Handle : H → E → Int → Int) (event : E)
    (hs : List H) :
    ∀ r : DispatchRun H E,
      (dispatchLoop Handle event hs r).calls = r.calls ++ hs.map (fun h => (h, event)) := by
  induction hs with
  | nil => intro r; simp [dispatchLoop]
  | cons h rest ih =>
    intro r
    simp only [dispatchLoop, ih, List.map_cons, List.append_assoc, List.singleton_append]

theorem Dispatch_snd {H E : Type} (GetName : E → String) (Handle : H → E → Int → Int)
    (ed : EventDispatcher H) (event : E) :
    (Dispatch GetName Handle ed event).2
      = (none, dispatchLoop Handle event (index ed.handlers (GetName event)) ⟨0, [], []⟩) := by
  unfold Dispatch
  split
  · rfl
  · rename_i hok
    have hk : ed.handlers (GetName event) = none := by
      cases hv : ed.handlers (GetName event) with
      | none => rfl
      | some v => simp [commaOk, hv] at hok
    simp [index_of_none hk, dispatchLoop]

theorem Dispatch_calls {H E : Type} (GetName : E → String) (Handle : H → E → Int → Int)
    (ed : EventDispatcher H) (event : E) :
    (Dispatch GetName Handle ed event).2.2.calls
      = (index ed.handlers (GetName event)).map (fun h => (h, event)) := by
  rw [Dispatch_snd]
  simp [dispatchLoop_calls]

/-- C12, evaluated on the code: with one handler registered under `"test"` whose
`Handle` returns without calling `wg.Done()`, `Dispatch` has invoked the handler and
returns nil while the wait-group counter it created is still 1. -/
theorem Dispatch_returns_with_counter_pending :
    (Dispatch id neverDone (Register (NewEventDispatcher Nat) "test" 1).1 "test").2.1 = none ∧
    (Dispatch id neverDone (Register (NewEventDispatcher Nat) "test" 1).1 "test").2.2.calls
      = [(1, "test")] ∧
    (Dispatch id neverDone (Register (NewEventDispatcher Nat) "test" 1).1 "test").2.2.wg = 1 := by
  decide

theorem dispatchLoopBlocking_of_returns {H E : Type} (Handle : H → E → Int → Int) (event : E)
    (hs : List H) :
    ∀ (wg : Int) (calls : List (H × E)) (trace : List Int),
      dispatchLoopBlocking (fun h e c => some (Handle h e c)) event hs wg calls
        = ((dispatchLoop Handle event hs ⟨wg, calls, trace⟩).calls,
           some (dispatchLoop Handle event hs ⟨wg, calls, trace⟩).wg) := by
  induction hs with
  | nil => intro wg calls trace; simp [dispatchLoopBlocking, dispatchLoop]
  | cons h rest ih =>
    intro wg calls trace
    simp only [dispatchLoopBlocking, dispatchLoop]
    exact ih _ _ _

/-- C13, evaluated on the code: with handlers `1` and `2` registered under `"test"` and
the `Handle` call of handler `1` never returning, `Dispatch` begins the invocation of
handler `1` only; handler `2` is never invoked and `Dispatch` never returns. -/
theorem Dispatch_second_handler_waits_for_first :
    index (run id doneOnce [Call.register "test" 1, Call.register "test" 2]).handlers "test"
      = [1, 2] ∧
    DispatchBlocking id firstBlocks
      (run id doneOnce [Call.register "test" 1, Call.register "test" 2]) "test"
      = ([(1, "test")], none) := by
  decide

/-- C15: name isolation.  For distinct names `A` and `B` and a handler `h` that occurs in
the slice under `B` but not in the slice under `A`, `Dispatch` of an event whose name is
`A` makes no invocation of `h`. -/
theorem Dispatch_name_isolation {H E : Type} (GetName : E → String)
    (Handle : H → E → Int → Int) (ed : EventDispatcher H) (A B : String) (h : H) (event : E)
    (_hAB : A ≠ B) (_hB : h ∈ index ed.handlers B) (hA : h ∉ index ed.handlers A)
    (hname : GetName event = A) :
    ∀ c ∈ (Dispatch GetName Handle ed event).2.2.calls, c.1 ≠ h := by
  intro c hc
  rw [Dispatch_calls, hname] at hc
  obtain ⟨h2, hmem, rfl⟩ := List.mem_map.1 hc
  intro heq
  exact hA (heq ▸ hmem)

theorem Dispatch_name_isolation_witness :
    ("A" ≠ "B" ∧
     (2 : Nat) ∈ index (run id doneOnce
       [Call.register "A" 1, Call.register "B" 2]).handlers "B" ∧
     (2 : Nat) ∉ index (run id doneOnce
       [Call.register "A" 1, Call.register "B" 2]).handlers "A" ∧
     id "A" = "A") ∧
    ∀ c ∈ (Dispatch id doneOnce (run id doneOnce
       [Call.register "A" 1, Call.register "B" 2]) "A").2.2.calls, c.1 ≠ 2 :=
  ⟨⟨by decide, by decide, by decide, rfl⟩,
   Dispatch_name_isolation id doneOnce
     (run id doneOnce [Call.register "A" 1, Call.register "B" 2]) "A" "B" 2 "A"
     (by decide) (by decide) (by decide) rfl⟩

/-! Section: Absent names and empty slices -/

theorem index_Register {H : Type} [DecidableEq H] (ed : EventDispatcher H) (N M : String)
    (h : H) :
    index (Register ed N h).1.handlers M
      = if M = N then (if h ∈ index ed.handlers N then index ed.handlers N
          else index ed.handlers N ++ [h])
        else index ed.handlers M := by
  by_cases hm : h ∈ index ed.handlers N
  · rw [Register_of_mem ed N h hm]
    by_cases hMN : M = N
    · simp [hMN, hm]
    · simp [hMN]
  · rw [Register_of_not_mem ed N h hm]
    by_cases hMN : M = N
    · subst hMN
      simp [index_mapSet_same, hm]
    · simp [index_mapSet_other _ _ _ _ hMN, hMN]

theorem index_Remove {H : Type} [DecidableEq H] (ed : EventDispatcher H) (N M : String)
    (h : H) :
    index (Remove ed N h).1.handlers M
      = if M = N then (index ed.handlers N).erase h else index ed.handlers M := by
  by_cases hm : h ∈ index ed.handlers N
  · rw [Remove_of_mem ed N h hm]
    by_cases hMN : M = N
    · subst hMN
      simp [index_mapSet_same]
    · simp [index_mapSet_other _ _ _ _ hMN, hMN]
  · rw [Remove_of_not_mem ed N h hm]
    by_cases hMN : M = N
    · subst hMN
      simp [List.erase_of_not_mem hm]
    · simp [hMN]

theorem Register_snd {H : Type} [DecidableEq H] (ed : EventDispatcher H) (N : String)
    (h : H) :
    (Register ed N h).2
      = if h ∈ index ed.handlers N then some Error.ErrEventAlreadyRegistered else none := by
  by_cases hm : h ∈ index ed.handlers N
  · rw [Register_of_mem ed N h hm]
    simp [hm]
  · rw [Register_of_not_mem ed N h hm]
    simp [hm]

theorem Remove_snd {H : Type} [DecidableEq H] (ed : EventDispatcher H) (N : String)
    (h : H) : (Remove ed N h).2 = none := by
  by_cases hm : h ∈ index ed.handlers N
  · rw [Remove_of_mem ed N h hm]
  · rw [Remove_of_not_mem ed N h hm]

/-- C16: an absent name is equivalent to an empty slice.  Let two dispatchers agree on
every name except that the first has no key `N` and the second maps `N` to the empty
slice.  Then for every handler `h` and event, `Has N h`, `Remove N h`, `Register N h`
and `Dispatch(event)` return the same results on both, `Dispatch` makes the same
`Handle` invocations (its whole run is the same), and the dispatchers after each call
again hold the same slice under every name, an absent name read as the empty slice. -/
theorem absent_name_equivalent_to_empty {H E : Type} [DecidableEq H] (GetName : E → String)
    (Handle : H → E → Int → Int) (ed1 ed2 : EventDispatcher H) (N : String)
    (habsent : ed1.handlers N = none) (hempty : ed2.handlers N = some [])
    (hother : ∀ M : String, M ≠ N → ed1.handlers M = ed2.handlers M) (h : H) (event : E) :
    Has ed1 N h = Has ed2 N h ∧
    ((Remove ed1 N h).2 = (Remove ed2 N h).2 ∧
      ∀ M : String, index (Remove ed1 N h).1.handlers M = index (Remove ed2 N h).1.handlers M) ∧
    ((Register ed1 N h).2 = (Register ed2 N h).2 ∧
      ∀ M : String,
        index (Register ed1 N h).1.handlers M = index (Register ed2 N h).1.handlers M) ∧
    ((Dispatch GetName Handle ed1 event).2 = (Dispatch GetName Handle ed2 event).2 ∧
      ∀ M : String,
        index (Dispatch GetName Handle ed1 event).1.handlers M
          = index (Dispatch GetName Handle ed2 event).1.handlers M) := by
  have hidx : ∀ M : String, index ed1.handlers M = index ed2.handlers M := by
    intro M
    by_cases hMN : M = N
    · subst hMN
      rw [index_of_none habsent, index_of_some hempty]
    · simp [index, hother M hMN]
  refine ⟨?_, ⟨?_, ?_⟩, ⟨?_, ?_⟩, ⟨?_, ?_⟩⟩
  · rw [Bool.eq_iff_iff, Has_iff_mem, Has_iff_mem, hidx N]
  · rw [Remove_snd, Remove_snd]
  · intro M
    rw [index_Remove, index_Remove, hidx N, hidx M]
  · rw [Register_snd, Register_snd, hidx N]
  · intro M
    rw [index_Register, index_Register, hidx N, hidx M]
  · rw [Dispatch_snd, Dispatch_snd, hidx (GetName event)]
  · intro M
    rw [Dispatch_fst, Dispatch_fst]
    exact hidx M

theorem absent_name_equivalent_to_empty_witness :
    ((NewEventDispatcher Nat).handlers "test" = none ∧
     (Remove (Register (NewEventDispatcher Nat) "test" 1).1 "test" 1).1.handlers "test"
       = some [] ∧
     (∀ M : String, M ≠ "test" →
       (NewEventDispatcher Nat).handlers M
         = (Remove (Register (NewEventDispatcher Nat) "test" 1).1 "test" 1).1.handlers M)) ∧
    Has (NewEventDispatcher Nat) "test" 2
      = Has (Remove (Register (NewEventDispatcher Nat) "test" 1).1 "test" 1).1 "test" 2 ∧
    (Dispatch id doneOnce (NewEventDispatcher Nat) "test").2
      = (Dispatch id doneOnce
          (Remove (Register (NewEventDispatcher Nat) "test" 1).1 "test" 1).1 "test").2 :=
  have hother : ∀ M : String, M ≠ "test" →
      (NewEventDispatcher Nat).handlers M
        = (Remove (Register (NewEventDispatcher Nat) "test" 1).1 "test" 1).1.handlers M := by
    intro M hM
    have hreg : (1 : Nat) ∉ index (NewEventDispatcher Nat).handlers "test" := by decide
    have hrem : (1 : Nat) ∈ index (EventDispatcher.mk
        (mapSet (NewEventDispatcher Nat).handlers "test"
          (index (NewEventDispatcher Nat).handlers "test" ++ [1]))).handlers "test" := by
      decide
    rw [Register_of_not_mem _ _ _ hreg, Remove_of_mem _ _ _ hrem]
    simp [mapSet, hM]
  ⟨⟨by decide, by decide, hother⟩,
   (absent_name_equivalent_to_empty id doneOnce (NewEventDispatcher Nat)
     (Remove (Register (NewEventDispatcher Nat) "test" 1).1 "test" 1).1 "test"
     (by decide) (by decide) hother 2 "test").1,
   (absent_name_equivalent_to_empty id doneOnce (NewEventDispatcher Nat)
     (Remove (Register (NewEventDispatcher Nat) "test" 1).1 "test" 1).1 "test"
     (by decide) (by decide) hother 2 "test").2.2.2.1⟩

/-! Section: Frame and round trip -/

theorem eq_of_handlers_eq {H : Type} (a b : EventDispatcher H)
    (hfun : a.handlers = b.handlers) : a = b := by
  show EventDispatcher.mk a.handlers = EventDispatcher.mk b.handlers
  rw [hfun]

/-- C18: per-name frame.  For names `N` and `M` with `M` different from `N`, what `M`
maps to (a slice, or nothing when `M` is not a key) is the same after `Register N h` and
after `Remove N h` as before the call, whether the call succeeds, fails or changes
nothing. -/
theorem other_names_untouched {H : Type} [DecidableEq H] (ed : EventDispatcher H)
    (N M : String) (h : H) (hne : M ≠ N) :
    (Register ed N h).1.handlers M = ed.handlers M ∧
    (Remove ed N h).1.handlers M = ed.handlers M ∧
    commaOk (Register ed N h).1.handlers M = commaOk ed.handlers M ∧
    commaOk (Remove ed N h).1.handlers M = commaOk ed.handlers M := by
  have hreg : (Register ed N h).1.handlers M = ed.handlers M := by
    by_cases hm : h ∈ index ed.handlers N
    · rw [Register_of_mem ed N h hm]
    · rw [Register_of_not_mem ed N h hm]
      simp [mapSet, hne]
  have hrem : (Remove ed N h).1.handlers M = ed.handlers M := by
    by_cases hm : h ∈ index ed.handlers N
    · rw [Remove_of_mem ed N h hm]
      simp [mapSet, hne]
    · rw [Remove_of_not_mem ed N h hm]
  exact ⟨hreg, hrem, by simp [commaOk, hreg], by simp [commaOk, hrem]⟩

theorem other_names_untouched_witness :
    "test2" ≠ "test" ∧
    (Register (run id doneOnce [Call.register "test" 1, Call.register "test2" 3])
      "test" 2).1.handlers "test2"
      = (run id doneOnce [Call.register "test" 1, Call.register "test2" 3]).handlers "test2" ∧
    (Remove (run id doneOnce [Call.register "test" 1, Call.register "test2" 3])
      "test" 1).1.handlers "test2"
      = (run id doneOnce [Call.register "test" 1, Call.register "test2" 3]).handlers "test2" :=
  ⟨by decide,
   (other_names_untouched (run id doneOnce [Call.register "test" 1, Call.register "test2" 3])
     "test" "test2" 2 (by decide)).1,
   (other_names_untouched (run id doneOnce [Call.register "test" 1, Call.register "test2" 3])
     "test" "test2" 1 (by decide)).2.1⟩

/-! Section: The completion counter -/

theorem dispatchLoop_done_once {H E : Type} (Handle : H → E → Int → Int) (event : E)
    (hdone : ∀ (h : H) (c : Int), Handle h event c = c - 1) (hs : List H) :
    ∀ r : DispatchRun H E, r.wg = 0 →
      (dispatchLoop Handle event hs r).wg = 0 ∧
      (dispatchLoop Handle event hs r).trace = r.trace ++ hs.flatMap (fun _ => [1, 0]) := by
  induction hs with
  | nil => intro r hr; simp [dispatchLoop, hr]
  | cons h rest ih =>
    intro r hr
    have hstep := ih ⟨Handle h event (r.wg + 1), r.calls ++ [(h, event)],
      r.trace ++ [r.wg + 1, Handle h event (r.wg + 1)]⟩ (by simp [hdone, hr])
    simp only [dispatchLoop]
    refine ⟨hstep.1, ?_⟩
    rw [hstep.2]
    simp [hdone, hr]

/-- C20: completion-counter safety.  With the wait group as an integer counter that
starts at 0, is incremented by 1 immediately before each `Handle` call and decremented
by 1 by each `Done`, if every handler calls `Done` exactly once during its `Handle` call,
then during `Dispatch` the counter is never negative and never exceeds 1 (it reads 1
after each increment and 0 after each `Handle` call), it is 0 when `Dispatch` returns,
and the number of increments, one before each `Handle` call, is the length of the slice
under the name of the event. -/
theorem completion_counter_safety {H E : Type} (GetName : E → String)
    (Handle : H → E → Int → Int) (ed : EventDispatcher H) (event : E)
    (hdone : ∀ (h : H) (c : Int), Handle h event c = c - 1) :
    (∀ v ∈ (Dispatch GetName Handle ed event).2.2.trace, 0 ≤ v ∧ v ≤ 1) ∧
    (Dispatch GetName Handle ed event).2.2.wg = 0 ∧
    (Dispatch GetName Handle ed event).2.2.trace
      = (index ed.handlers (GetName event)).flatMap (fun _ => [1, 0]) ∧
    ((Dispatch GetName Handle ed event).2.2.trace.filter (fun v => v = 1)).length
      = (index ed.handlers (GetName event)).length ∧
    (Dispatch GetName Handle ed event).2.2.calls.length
      = (index ed.handlers (GetName event)).length := by
  have hloop := dispatchLoop_done_once Handle event hdone
    (index ed.handlers (GetName event)) ⟨0, [], []⟩ rfl
  have htrace : (Dispatch GetName Handle ed event).2.2.trace
      = (index ed.handlers (GetName event)).flatMap (fun _ => [1, 0]) := by
    rw [Dispatch_snd]
    simpa using hloop.2
  refine ⟨?_, ?_, htrace, ?_, ?_⟩
  · intro v hv
    rw [htrace] at hv
    obtain ⟨_, _, hv2⟩ := List.mem_flatMap.1 hv
    simp only [List.mem_cons, List.mem_singleton, List.not_mem_nil, or_false] at hv2
    rcases hv2 with rfl | rfl <;> decide
  · rw [Dispatch_snd]
    exact hloop.1
  · rw [htrace]
    induction index ed.handlers (GetName event) with
    | nil => rfl
    | cons a rest ih =>
      simp only [List.flatMap_cons, List.length_cons]
      rw [List.filter_append, List.length_append, ih]
      simp [List.filter]
      omega
  · rw [Dispatch_calls]
    simp

theorem completion_counter_safety_witness :
    (∀ (h : Nat) (c : Int), doneOnce h "test" c = c - 1) ∧
    (Dispatch id doneOnce (run id doneOnce
      [Call.register "test" 1, Call.register "test" 2, Call.register "test" 3])
      "test").2.2.trace = [1, 0, 1, 0, 1, 0] ∧
    (Dispatch id doneOnce (run id doneOnce
      [Call.register "test" 1, Call.register "test" 2, Call.register "test" 3])
      "test").2.2.wg = 0 :=
  ⟨fun _ _ => rfl, by decide,
   (completion_counter_safety id doneOnce (run id doneOnce
      [Call.register "test" 1, Call.register "test" 2, Call.register "test" 3])
      "test" (fun _ _ => rfl)).2.1⟩

/-! Section: The methods under the comparison of interface values -/

theorem rangeFindsBy_iff {H : Type} (eq : H → H → Bool) (handler : H) (s : List H) :
    rangeFindsBy eq handler s = true ↔ ∃ x ∈ s, eq x handler = true := by
  induction s with
  | nil => simp [rangeFindsBy]
  | cons h rest ih =>
    cases hh : eq h handler with
    | true => simp [rangeFindsBy, hh]
    | false => simp [rangeFindsBy, hh, ih]

theorem rangeFindsBy_eq_false {H : Type} (eq : H → H → Bool) (handler : H) (s : List H)
    (hn : ∀ x ∈ s, eq x handler = false) : rangeFindsBy eq handler s = false := by
  cases hr : rangeFindsBy eq handler s with
  | false => rfl
  | true =>
    obtain ⟨x, hx, hxe⟩ := (rangeFindsBy_iff eq handler s).1 hr
    rw [hn x hx] at hxe
    exact absurd hxe (by decide)

theorem commaOk_and_rangeFindsBy {H : Type} (eq : H → H → Bool) (ed : EventDispatcher H)
    (N : String) (h : H) :
    (commaOk ed.handlers N && rangeFindsBy eq h (index ed.handlers N))
      = rangeFindsBy eq h (index ed.handlers N) := by
  cases hk : ed.handlers N with
  | none => simp [commaOk, index, hk, rangeFindsBy]
  | some v => simp [commaOk, hk]

theorem RegisterBy_of_found {H : Type} (eq : H → H → Bool) (ed : EventDispatcher H)
    (N : String) (h : H) (hf : rangeFindsBy eq h (index ed.handlers N) = true) :
    RegisterBy eq ed N h = (ed, some Error.ErrEventAlreadyRegistered) := by
  unfold RegisterBy
  rw [commaOk_and_rangeFindsBy, hf]
  rfl

theorem RegisterBy_of_not_found {H : Type} (eq : H → H → Bool) (ed : EventDispatcher H)
    (N : String) (h : H) (hf : rangeFindsBy eq h (index ed.handlers N) = false) :
    RegisterBy eq ed N h
      = (⟨mapSet ed.handlers N (index ed.handlers N ++ [h])⟩, none) := by
  unfold RegisterBy
  rw [commaOk_and_rangeFindsBy, hf]
  rfl

theorem HasBy_eq {H : Type} (eq : H → H → Bool) (ed : EventDispatcher H) (N : String)
    (h : H) : HasBy eq ed N h = rangeFindsBy eq h (index ed.handlers N) := by
  unfold HasBy
  rw [commaOk_and_rangeFindsBy]
  cases rangeFindsBy eq h (index ed.handlers N) <;> rfl

theorem removeLoopBy_eq {H : Type} (eq : H → H → Bool) (handler : H) (rest : List H) :
    ∀ pre : List H, removeLoopBy eq (pre ++ rest) handler pre.length rest
      = if rangeFindsBy eq handler rest then
          some (pre ++ rest.eraseP (fun x => eq x handler))
        else none := by
  induction rest with
  | nil => intro pre; simp [removeLoopBy, rangeFindsBy]
  | cons h t ih =>
    intro pre
    cases hh : eq h handler with
    | true => simp [removeLoopBy, rangeFindsBy, hh, spliceOut_append]
    | false =>
      have hstep := ih (pre ++ [h])
      simp only [List.append_assoc, List.singleton_append, List.length_append,
        List.length_singleton] at hstep
      simp [removeLoopBy, rangeFindsBy, hh, hstep]

theorem RemoveBy_of_found {H : Type} (eq : H → H → Bool) (ed : EventDispatcher H)
    (N : String) (h : H) (hf : rangeFindsBy eq h (index ed.handlers N) = true) :
    RemoveBy eq ed N h
      = (⟨mapSet ed.handlers N ((index ed.handlers N).eraseP (fun x => eq x h))⟩, none) := by
  have hok : commaOk ed.handlers N = true := by
    rw [← commaOk_and_rangeFindsBy] at hf
    cases hc : commaOk ed.handlers N with
    | true => rfl
    | false => simp [hc] at hf
  have hloop := removeLoopBy_eq eq h (index ed.handlers N) []
  simp only [List.nil_append, List.length_nil, hf, if_true] at hloop
  simp [RemoveBy, hok, hloop]

theorem RemoveBy_of_not_found {H : Type} (eq : H → H → Bool) (ed : EventDispatcher H)
    (N : String) (h : H) (hf : rangeFindsBy eq h (index ed.handlers N) = false) :
    RemoveBy eq ed N h = (ed, none) := by
  have hloop := removeLoopBy_eq eq h (index ed.handlers N) []
  simp only [List.nil_append, List.length_nil, hf] at hloop
  unfold RemoveBy
  split
  · rw [hloop]
    rfl
  · rfl

theorem RemoveBy_snd {H : Type} (eq : H → H → Bool) (ed : EventDispatcher H) (N : String)
    (h : H) : (RemoveBy eq ed N h).2 = none := by
  cases hf : rangeFindsBy eq h (index ed.handlers N) with
  | true => rw [RemoveBy_of_found eq ed N h hf]
  | false => rw [RemoveBy_of_not_found eq ed N h hf]

theorem index_RegisterBy {H : Type} (eq : H → H → Bool) (ed : EventDispatcher H)
    (N M : String) (h : H) :
    index (RegisterBy eq ed N h).1.handlers M
      = if M = N then
          (if rangeFindsBy eq h (index ed.handlers N) then index ed.handlers N
           else index ed.handlers N ++ [h])
        else index ed.handlers M := by
  cases hf : rangeFindsBy eq h (index ed.handlers N) with
  | true =>
    rw [RegisterBy_of_found eq ed N h hf]
    by_cases hMN : M = N
    · simp [hMN]
    · simp [hMN]
  | false =>
    rw [RegisterBy_of_not_found eq ed N h hf]
    by_cases hMN : M = N
    · subst hMN
      simp [index_mapSet_same]
    · simp [index_mapSet_other _ _ _ _ hMN, hMN]

theorem index_RemoveBy {H : Type} (eq : H → H → Bool) (ed : EventDispatcher H)
    (N M : String) (h : H) :
    index (RemoveBy eq ed N h).1.handlers M
      = if M = N then (index ed.handlers N).eraseP (fun x => eq x h)
        else index ed.handlers M := by
  cases hf : rangeFindsBy eq h (index ed.handlers N) with
  | true =>
    rw [RemoveBy_of_found eq ed N h hf]
    by_cases hMN : M = N
    · subst hMN
      simp [index_mapSet_same]
    · simp [index_mapSet_other _ _ _ _ hMN, hMN]
  | false =>
    rw [RemoveBy_of_not_found eq ed N h hf]
    by_cases hMN : M = N
    · subst hMN
      have hnone : ∀ a, a ∈ index ed.handlers M → ¬ (eq a h = true) := by
        intro a ha hae
        have hfound := (rangeFindsBy_iff eq h _).2 ⟨a, ha, hae⟩
        rw [hf] at hfound
        exact absurd hfound (by decide)
      simp [List.eraseP_of_forall_not hnone]
    · simp [hMN]

theorem RegisterBy_lawfulEq {H : Type} [DecidableEq H] (ed : EventDispatcher H) (N : String)
    (h : H) : RegisterBy lawfulEq ed N h = Register ed N h := rfl

theorem HasBy_lawfulEq {H : Type} [DecidableEq H] (ed : EventDispatcher H) (N : String)
    (h : H) : HasBy lawfulEq ed N h = Has ed N h := rfl

theorem RemoveBy_lawfulEq {H : Type} [DecidableEq H] (ed : EventDispatcher H) (N : String)
    (h : H) : RemoveBy lawfulEq ed N h = Remove ed N h := rfl

theorem runBy_lawfulEq {H E : Type} [DecidableEq H] (GetName : E → String)
    (Handle : H → E → Int → Int) (calls : List (Call H E)) :
    runBy lawfulEq GetName Handle calls = run GetName Handle calls := by
  have hstep : stepBy lawfulEq GetName Handle = step GetName Handle := by
    funext ed call
    cases call <;> rfl
  simp [runBy, run, runFrom, hstep]

theorem noEqualPair_new {H : Type} (eq : H → H → Bool) :
    NoEqualPair eq (NewEventDispatcher H) := by
  intro name
  simp [NewEventDispatcher, makeMap, index]

theorem noEqualPair_RegisterBy {H : Type} (eq : H → H → Bool) (ed : EventDispatcher H)
    (N : String) (h : H) (hinv : NoEqualPair eq ed) :
    NoEqualPair eq (RegisterBy eq ed N h).1 := by
  intro name
  rw [index_RegisterBy]
  by_cases hname : name = N
  · subst hname
    simp only [if_true]
    cases hf : rangeFindsBy eq h (index ed.handlers name) with
    | true => simpa using hinv name
    | false =>
      simp only [Bool.false_eq_true, if_false]
      rw [List.pairwise_append]
      refine ⟨hinv name, List.pairwise_singleton _ _, ?_⟩
      intro a ha b hb
      rw [List.mem_singleton] at hb
      subst hb
      cases hab : eq a b with
      | false => rfl
      | true =>
        have hfound := (rangeFindsBy_iff eq b _).2 ⟨a, ha, hab⟩
        rw [hf] at hfound
        exact absurd hfound (by decide)
  · simp only [hname, if_false]
    exact hinv name

theorem noEqualPair_RemoveBy {H : Type} (eq : H → H → Bool) (ed : EventDispatcher H)
    (N : String) (h : H) (hinv : NoEqualPair eq ed) :
    NoEqualPair eq (RemoveBy eq ed N h).1 := by
  intro name
  rw [index_RemoveBy]
  by_cases hname : name = N
  · subst hname
    simp only [if_true]
    exact List.Pairwise.sublist (List.eraseP_sublist _) (hinv name)
  · simp only [hname, if_false]
    exact hinv name

theorem noEqualPair_stepBy {H E : Type} (eq : H → H → Bool) (GetName : E → String)
    (Handle : H → E → Int → Int) (ed : EventDispatcher H) (call : Call H E)
    (hinv : NoEqualPair eq ed) : NoEqualPair eq (stepBy eq GetName Handle ed call) := by
  cases call with
  | register eventName handler => exact noEqualPair_RegisterBy eq ed eventName handler hinv
  | remove eventName handler => exact noEqualPair_RemoveBy eq ed eventName handler hinv
  | clear => exact noEqualPair_new eq
  | has eventName handler => exact hinv
  | dispatch event =>
    show NoEqualPair eq (Dispatch GetName Handle ed event).1
    rw [Dispatch_fst]
    exact hinv

theorem noEqualPair_runBy {H E : Type} (eq : H → H → Bool) (GetName : E → String)
    (Handle : H → E → Int → Int) (calls : List (Call H E)) :
    NoEqualPair eq (runBy eq GetName Handle calls) := by
  have hfold : ∀ (cs : List (Call H E)) (ed : EventDispatcher H), NoEqualPair eq ed →
      NoEqualPair eq (cs.foldl (stepBy eq GetName Handle) ed) := by
    intro cs
    induction cs with
    | nil => intro ed hinv; exact hinv
    | cons call rest ih =>
      intro ed hinv
      exact ih _ (noEqualPair_stepBy eq GetName Handle ed call hinv)
  exact hfold calls _ (noEqualPair_new eq)

theorem no_match_after_RemoveBy {H : Type} (eq : H → H → Bool)
    (hsymm : ∀ a b : H, eq a b = true → eq b a = true)
    (htrans : ∀ a b c : H, eq a b = true → eq b c = true → eq a c = true)
    (ed : EventDispatcher H) (N : String) (h : H) (hinv : NoEqualPair eq ed) :
    rangeFindsBy eq h (index (RemoveBy eq ed N h).1.handlers N) = false := by
  apply rangeFindsBy_eq_false
  intro y hy
  rw [index_RemoveBy] at hy
  simp only [if_true] at hy
  cases hyh : eq y h with
  | false => rfl
  | true =>
    exfalso
    have hyl : y ∈ index ed.handlers N := (List.eraseP_sublist _).subset hy
    obtain ⟨a, l1, l2, hl1, hpa, hsplit, herase⟩ :=
      List.exists_of_eraseP (p := fun x => eq x h) hyl hyh
    rw [herase] at hy
    rcases List.mem_append.1 hy with hy1 | hy2
    · exact hl1 y hy1 hyh
    · have hpair := hinv N
      rw [hsplit, List.pairwise_append] at hpair
      have hay : eq a y = false := (List.pairwise_cons.1 hpair.2.1).1 y hy2
      have hay2 : eq a y = true := htrans a h y hpa (hsymm y h hyh)
      rw [hay] at hay2
      exact absurd hay2 (by decide)

theorem fieldEq_symm (a b : FieldValue) (hab : fieldEq a b = true) : fieldEq b a = true := by
  cases a <;> cases b <;> simp_all [fieldEq]

theorem fieldEq_trans (a b c : FieldValue) (hab : fieldEq a b = true)
    (hbc : fieldEq b c = true) : fieldEq a c = true := by
  cases a <;> cases b <;> cases c <;> simp_all [fieldEq]

theorem fieldsEq_symm : ∀ fs gs : List FieldValue, fieldsEq fs gs = true →
    fieldsEq gs fs = true
  | [], [], _ => rfl
  | [], _ :: _, hfg => by simp [fieldsEq] at hfg
  | _ :: _, [], hfg => by simp [fieldsEq] at hfg
  | a :: fs, b :: gs, hfg => by
    simp only [fieldsEq, Bool.and_eq_true] at hfg ⊢
    exact ⟨fieldEq_symm a b hfg.1, fieldsEq_symm fs gs hfg.2⟩

theorem fieldsEq_trans : ∀ fs gs ks : List FieldValue, fieldsEq fs gs = true →
    fieldsEq gs ks = true → fieldsEq fs ks = true
  | [], [], [], _, _ => rfl
  | [], [], _ :: _, _, hgk => by simp [fieldsEq] at hgk
  | [], _ :: _, _, hfg, _ => by simp [fieldsEq] at hfg
  | _ :: _, [], _, hfg, _ => by simp [fieldsEq] at hfg
  | _ :: _, _ :: _, [], _, hgk => by simp [fieldsEq] at hgk
  | a :: fs, b :: gs, c :: ks, hfg, hgk => by
    simp only [fieldsEq, Bool.and_eq_true] at hfg hgk ⊢
    exact ⟨fieldEq_trans a b c hfg.1 hgk.1, fieldsEq_trans fs gs ks hfg.2 hgk.2⟩

theorem goEq_symm : ∀ a b : GoHandler, goEq a b = true → goEq b a = true
  | GoHandler.nilHandler, GoHandler.nilHandler, _ => rfl
  | GoHandler.nilHandler, GoHandler.pointer _ _, hab => by simp [goEq] at hab
  | GoHandler.nilHandler, GoHandler.value _ _, hab => by simp [goEq] at hab
  | GoHandler.pointer _ _, GoHandler.nilHandler, hab => by simp [goEq] at hab
  | GoHandler.pointer _ _, GoHandler.value _ _, hab => by simp [goEq] at hab
  | GoHandler.value _ _, GoHandler.nilHandler, hab => by simp [goEq] at hab
  | GoHandler.value _ _, GoHandler.pointer _ _, hab => by simp [goEq] at hab
  | GoHandler.pointer t a, GoHandler.pointer u b, hab => by
    simp only [goEq, Bool.and_eq_true, decide_eq_true_eq] at hab ⊢
    exact ⟨hab.1.symm, hab.2.symm⟩
  | GoHandler.value t fs, GoHandler.value u gs, hab => by
    simp only [goEq, Bool.and_eq_true, decide_eq_true_eq] at hab ⊢
    exact ⟨hab.1.symm, fieldsEq_symm fs gs hab.2⟩

theorem goEq_trans (a b c : GoHandler) (hab : goEq a b = true) (hbc : goEq b c = true) :
    goEq a c = true := by
  cases a with
  | nilHandler =>
    cases b with
    | nilHandler => exact hbc
    | pointer u y => simp [goEq] at hab
    | value u gs => simp [goEq] at hab
  | pointer t x =>
    cases b with
    | nilHandler => simp [goEq] at hab
    | value u gs => simp [goEq] at hab
    | pointer u y =>
      cases c with
      | nilHandler => simp [goEq] at hbc
      | value v ks => simp [goEq] at hbc
      | pointer v z =>
        simp only [goEq, Bool.and_eq_true, decide_eq_true_eq] at hab hbc ⊢
        exact ⟨hab.1.trans hbc.1, hab.2.trans hbc.2⟩
  | value t fs =>
    cases b with
    | nilHandler => simp [goEq] at hab
    | pointer u y => simp [goEq] at hab
    | value u gs =>
      cases c with
      | nilHandler => simp [goEq] at hbc
      | pointer v z => simp [goEq] at hbc
      | value v ks =>
        simp only [goEq, Bool.and_eq_true, decide_eq_true_eq] at hab hbc ⊢
        exact ⟨hab.1.trans hbc.1, fieldsEq_trans fs gs ks hab.2 hbc.2⟩

/-- C4, as stated, fails: on a new dispatcher, where nothing is registered under
`"test"`, two consecutive calls `Register("test", h)` for a handler `h` held by value
with a NaN field both return nil, and `h` is then stored twice. -/
theorem Register_twice_fails_for_nan :
    index (NewEventDispatcher GoHandler).handlers "test" = [] ∧
    (RegisterBy goEq (NewEventDispatcher GoHandler) "test" nanHandler).2 = none ∧
    (RegisterBy goEq (RegisterBy goEq (NewEventDispatcher GoHandler) "test" nanHandler).1
      "test" nanHandler).2 ≠ some Error.ErrEventAlreadyRegistered ∧
    index (RegisterBy goEq (RegisterBy goEq (NewEventDispatcher GoHandler) "test"
      nanHandler).1 "test" nanHandler).1.handlers "test" = [nanHandler, nanHandler] := by
  decide

/-- C4, amended: registration uniqueness for handlers that compare equal to themselves.
For every dispatcher reached from `NewEventDispatcher()` by a finite sequence of calls,
every name `N` and every handler `h` with `h == h` to which no handler stored under `N` is
equal, the first of two consecutive calls `Register N h` returns nil, the second returns
`ErrEventAlreadyRegistered`, and afterwards exactly one handler stored under `N` is equal
to `h`. -/
theorem Register_twice_self_equal {H E : Type} (eq : H → H → Bool) (GetName : E → String)
    (Handle : H → E → Int → Int) (calls : List (Call H E)) (N : String) (h : H)
    (hn : ∀ x ∈ index (runBy eq GetName Handle calls).handlers N, eq x h = false)
    (hself : eq h h = true) :
    (RegisterBy eq (runBy eq GetName Handle calls) N h).2 = none ∧
    (RegisterBy eq (RegisterBy eq (runBy eq GetName Handle calls) N h).1 N h).2
      = some Error.ErrEventAlreadyRegistered ∧
    (index (RegisterBy eq (RegisterBy eq (runBy eq GetName Handle calls) N h).1 N
      h).1.handlers N).countP (fun x => eq x h) = 1 := by
  have hnf := rangeFindsBy_eq_false eq h _ hn
  have hidx : index (RegisterBy eq (runBy eq GetName Handle calls) N h).1.handlers N
      = index (runBy eq GetName Handle calls).handlers N ++ [h] := by
    rw [index_RegisterBy]
    simp [hnf]
  have hfound : rangeFindsBy eq h
      (index (RegisterBy eq (runBy eq GetName Handle calls) N h).1.handlers N) = true := by
    rw [hidx]
    exact (rangeFindsBy_iff eq h _).2 ⟨h, by simp, hself⟩
  refine ⟨by rw [RegisterBy_of_not_found eq _ N h hnf], ?_, ?_⟩
  · rw [RegisterBy_of_found eq _ N h hfound]
  · rw [RegisterBy_of_found eq _ N h hfound, hidx, List.countP_append]
    have hzero : (index (runBy eq GetName Handle calls).handlers N).countP
        (fun x => eq x h) = 0 := by
      rw [List.countP_eq_zero]
      intro a ha
      simp [hn a ha]
    rw [hzero]
    simp [List.countP_cons, hself]

theorem Register_twice_self_equal_witness :
    ((∀ x ∈ index (runBy goEq id (fun _ _ c => c - 1)
        [Call.register "test" (GoHandler.pointer "TestEventHandler" 1)]).handlers "test",
        goEq x (GoHandler.pointer "TestEventHandler" 2) = false) ∧
      goEq (GoHandler.pointer "TestEventHandler" 2) (GoHandler.pointer "TestEventHandler" 2)
        = true) ∧
    (RegisterBy goEq (RegisterBy goEq (runBy goEq id (fun _ _ c => c - 1)
        [Call.register "test" (GoHandler.pointer "TestEventHandler" 1)]) "test"
        (GoHandler.pointer "TestEventHandler" 2)).1 "test"
        (GoHandler.pointer "TestEventHandler" 2)).2
      = some Error.ErrEventAlreadyRegistered :=
  ⟨⟨by decide, by decide⟩,
   (Register_twice_self_equal goEq id (fun _ _ c => c - 1)
     [Call.register "test" (GoHandler.pointer "TestEventHandler" 1)] "test"
     (GoHandler.pointer "TestEventHandler" 2) (by decide) (by decide)).2.1⟩

/-- C9, as stated, fails: for a handler `h` held by value with a NaN field,
`Register("test", h)` on a new dispatcher returns nil and `Has("test", h)` is false in
the state right after it. -/
theorem Has_false_after_Register_of_nan :
    (RegisterBy goEq (NewEventDispatcher GoHandler) "test" nanHandler).2 = none ∧
    HasBy goEq (RegisterBy goEq (NewEventDispatcher GoHandler) "test" nanHandler).1
      "test" nanHandler = false := by
  decide

/-- C9, amended: `Has` reflects the registry state for handlers that compare equal to
themselves.  With `==` symmetric and transitive, as Go's is, for every dispatcher reached
from `NewEventDispatcher()` by a finite sequence of calls, every name `N` and handler
`h`: when `h == h`, `Has N h` is true in the state right after a `Register N h` that
returned nil; and `Has N h` is false in the state right after `Remove N h`. -/
theorem Has_after_Register_and_Remove {H E : Type} (eq : H → H → Bool)
    (hsymm : ∀ a b : H, eq a b = true → eq b a = true)
    (htrans : ∀ a b c : H, eq a b = true → eq b c = true → eq a c = true)
    (GetName : E → String) (Handle : H → E → Int → Int) (calls : List (Call H E))
    (N : String) (h : H) :
    (eq h h = true → (RegisterBy eq (runBy eq GetName Handle calls) N h).2 = none →
      HasBy eq (RegisterBy eq (runBy eq GetName Handle calls) N h).1 N h = true) ∧
    HasBy eq (RemoveBy eq (runBy eq GetName Handle calls) N h).1 N h = false := by
  constructor
  · intro hself _
    rw [HasBy_eq, index_RegisterBy]
    simp only [if_true]
    cases hf : rangeFindsBy eq h (index (runBy eq GetName Handle calls).handlers N) with
    | true => simpa using hf
    | false =>
      simp only [Bool.false_eq_true, if_false]
      exact (rangeFindsBy_iff eq h _).2 ⟨h, by simp, hself⟩
  · rw [HasBy_eq]
    exact no_match_after_RemoveBy eq hsymm htrans _ N h
      (noEqualPair_runBy eq GetName Handle calls)

theorem Has_after_Register_and_Remove_witness :
    (goEq (GoHandler.value "VH" [FieldValue.num 1]) (GoHandler.value "VH" [FieldValue.num 1])
        = true ∧
      (RegisterBy goEq (runBy goEq id (fun _ _ c => c - 1)
        [Call.register "test" (GoHandler.pointer "TestEventHandler" 1)]) "test"
        (GoHandler.value "VH" [FieldValue.num 1])).2 = none) ∧
    HasBy goEq (RegisterBy goEq (runBy goEq id (fun _ _ c => c - 1)
        [Call.register "test" (GoHandler.pointer "TestEventHandler" 1)]) "test"
        (GoHandler.value "VH" [FieldValue.num 1])).1 "test"
        (GoHandler.value "VH" [FieldValue.num 1]) = true ∧
    HasBy goEq (RemoveBy goEq (runBy goEq id (fun _ _ c => c - 1)
        [Call.register "test" (GoHandler.pointer "TestEventHandler" 1)]) "test"
        (GoHandler.pointer "TestEventHandler" 1)).1 "test"
        (GoHandler.pointer "TestEventHandler" 1) = false :=
  ⟨⟨by decide, by decide⟩,
   (Has_after_Register_and_Remove goEq goEq_symm goEq_trans id (fun _ _ c => c - 1)
     [Call.register "test" (GoHandler.pointer "TestEventHandler" 1)] "test"
     (GoHandler.value "VH" [FieldValue.num 1])).1 (by decide) (by decide),
   (Has_after_Register_and_Remove goEq goEq_symm goEq_trans id (fun _ _ c => c - 1)
     [Call.register "test" (GoHandler.pointer "TestEventHandler" 1)] "test"
     (GoHandler.pointer "TestEventHandler" 1)).2⟩

/-- C19, as stated, fails: on a new dispatcher, where the slice under `"test"` is empty
and so does not contain `h`, `Register("test", h)` followed by `Remove("test", h)` for a
handler `h` held by value with a NaN field leaves `h` stored under `"test"`: `Remove`
never finds it. -/
theorem nan_handler_survives_Remove :
    index (NewEventDispatcher GoHandler).handlers "test" = [] ∧
    index (RemoveBy goEq (RegisterBy goEq (NewEventDispatcher GoHandler) "test"
      nanHandler).1 "test" nanHandler).1.handlers "test" = [nanHandler] ∧
    index (RemoveBy goEq (RegisterBy goEq (NewEventDispatcher GoHandler) "test"
      nanHandler).1 "test" nanHandler).1.handlers "test"
      ≠ index (NewEventDispatcher GoHandler).handlers "test" := by
  decide

/-- C19, amended: register/remove round trip for handlers that compare equal to
themselves.  When `h == h` and no handler stored under `N` is equal to `h`, `Register N h`
followed by `Remove N h` both return nil and leave under every name the slice that was
there before, an absent name read as the empty slice.  Every name other than `N` maps to
exactly what it mapped to; `N` is now a key holding its earlier slice; so the dispatcher
is the one before the calls when `N` was a key, and differs from it only in `N` being a
key mapped to the empty slice when `N` was not. -/
theorem Register_then_Remove {H : Type} (eq : H → H → Bool) (ed : EventDispatcher H)
    (N : String) (h : H) (hn : ∀ x ∈ index ed.handlers N, eq x h = false)
    (hself : eq h h = true) :
    (RegisterBy eq ed N h).2 = none ∧
    (RemoveBy eq (RegisterBy eq ed N h).1 N h).2 = none ∧
    (∀ M : String,
      index (RemoveBy eq (RegisterBy eq ed N h).1 N h).1.handlers M = index ed.handlers M) ∧
    (∀ M : String, M ≠ N →
      (RemoveBy eq (RegisterBy eq ed N h).1 N h).1.handlers M = ed.handlers M) ∧
    (RemoveBy eq (RegisterBy eq ed N h).1 N h).1.handlers N = some (index ed.handlers N) ∧
    (ed.handlers N ≠ none → (RemoveBy eq (RegisterBy eq ed N h).1 N h).1 = ed) ∧
    (ed.handlers N = none →
      (RemoveBy eq (RegisterBy eq ed N h).1 N h).1.handlers N = some []) := by
  have hnf := rangeFindsBy_eq_false eq h _ hn
  have hnot : ∀ b ∈ index ed.handlers N, ¬ ((fun x => eq x h) b = true) := by
    intro b hb
    simp [hn b hb]
  have herase : (index ed.handlers N ++ [h]).eraseP (fun x => eq x h)
      = index ed.handlers N := by
    rw [List.eraseP_append_right _ hnot]
    simp [List.eraseP_cons, hself]
  have hfound : rangeFindsBy eq h (index (EventDispatcher.mk
      (mapSet ed.handlers N (index ed.handlers N ++ [h]))).handlers N) = true := by
    rw [index_mapSet_same]
    exact (rangeFindsBy_iff eq h _).2 ⟨h, by simp, hself⟩
  have hafter : (RemoveBy eq (RegisterBy eq ed N h).1 N h).1
      = ⟨mapSet (mapSet ed.handlers N (index ed.handlers N ++ [h])) N (index ed.handlers N)⟩ := by
    rw [RegisterBy_of_not_found eq ed N h hnf, RemoveBy_of_found eq _ N h hfound]
    simp only [index_mapSet_same, herase]
  have hN : (RemoveBy eq (RegisterBy eq ed N h).1 N h).1.handlers N
      = some (index ed.handlers N) := by
    rw [hafter]
    simp [mapSet]
  have hM : ∀ M : String, M ≠ N →
      (RemoveBy eq (RegisterBy eq ed N h).1 N h).1.handlers M = ed.handlers M := by
    intro M hne
    rw [hafter]
    simp [mapSet, hne]
  refine ⟨by rw [RegisterBy_of_not_found eq ed N h hnf], RemoveBy_snd eq _ N h, ?_, hM, hN,
    ?_, ?_⟩
  · intro M
    by_cases hMN : M = N
    · subst hMN
      simp [index, hN]
    · simp [index, hM M hMN]
  · intro hkey
    obtain ⟨s, hs⟩ := Option.ne_none_iff_exists'.1 hkey
    have hfun : (RemoveBy eq (RegisterBy eq ed N h).1 N h).1.handlers = ed.handlers := by
      funext M
      by_cases hMN : M = N
      · subst hMN
        rw [hN, index_of_some hs, hs]
      · exact hM M hMN
    exact eq_of_handlers_eq _ _ hfun
  · intro hkey
    rw [hN, index_of_none hkey]

theorem Register_then_Remove_witness :
    ((∀ x ∈ index (RegisterBy goEq (NewEventDispatcher GoHandler) "test"
        (GoHandler.pointer "TestEventHandler" 1)).1.handlers "test",
        goEq x (GoHandler.pointer "TestEventHandler" 2) = false) ∧
      goEq (GoHandler.pointer "TestEventHandler" 2) (GoHandler.pointer "TestEventHandler" 2)
        = true) ∧
    (RemoveBy goEq (RegisterBy goEq (RegisterBy goEq (NewEventDispatcher GoHandler) "test"
        (GoHandler.pointer "TestEventHandler" 1)).1 "test"
        (GoHandler.pointer "TestEventHandler" 2)).1 "test"
        (GoHandler.pointer "TestEventHandler" 2)).1.handlers "test"
      = some (index (RegisterBy goEq (NewEventDispatcher GoHandler) "test"
        (GoHandler.pointer "TestEventHandler" 1)).1.handlers "test") :=
  ⟨⟨by decide, by decide⟩,
   (Register_then_Remove goEq (RegisterBy goEq (NewEventDispatcher GoHandler) "test"
     (GoHandler.pointer "TestEventHandler" 1)).1 "test"
     (GoHandler.pointer "TestEventHandler" 2) (by decide) (by decide)).2.2.2.2.1⟩

/-! Section: Handler equality -/

theorem fieldsEq_self_of_no_nan : ∀ fs : List FieldValue, FieldValue.nan ∉ fs →
    fieldsEq fs fs = true
  | [], _ => rfl
  | FieldValue.num n :: fs, hno => by
    simp only [fieldsEq, fieldEq, Bool.and_eq_true, decide_eq_true_eq, true_and]
    exact fieldsEq_self_of_no_nan fs (fun hmem => hno (List.mem_cons_of_mem _ hmem))
  | FieldValue.nan :: fs, hno => absurd (List.mem_cons_self _ _) hno

theorem fieldsEq_false_of_nan : ∀ fs gs : List FieldValue, FieldValue.nan ∈ fs →
    fieldsEq fs gs = false
  | [], _, hmem => by simp at hmem
  | _ :: _, [], _ => rfl
  | FieldValue.nan :: fs, b :: gs, _ => by simp [fieldsEq, fieldEq]
  | FieldValue.num n :: fs, b :: gs, hmem => by
    have htail : FieldValue.nan ∈ fs := by
      rcases List.mem_cons.1 hmem with hhead | htail
      · cases hhead
      · exact htail
    simp [fieldsEq, fieldsEq_false_of_nan fs gs htail]

theorem index_new (H : Type) (N : String) : index (NewEventDispatcher H).handlers N = [] := by
  simp [NewEventDispatcher, makeMap, index]

theorem distinct_of_not_equal (N : String) (v1 v2 : GoHandler) (hne : goEq v1 v2 = false) :
    DistinctRegistrations N v1 v2 := by
  have h0 : rangeFindsBy goEq v1 (index (NewEventDispatcher GoHandler).handlers N) = false := by
    rw [index_new]
    rfl
  have h1 : index (RegisterBy goEq (NewEventDispatcher GoHandler) N v1).1.handlers N
      = [v1] := by
    rw [index_RegisterBy, h0]
    simp [index_new]
  have hf2 : rangeFindsBy goEq v2
      (index (RegisterBy goEq (NewEventDispatcher GoHandler) N v1).1.handlers N) = false := by
    rw [h1]
    simp [rangeFindsBy, hne]
  refine ⟨?_, ?_, ?_, ?_⟩
  · rw [RegisterBy_of_not_found goEq _ N v1 h0]
  · rw [RegisterBy_of_not_found goEq _ N v2 hf2]
  · rw [index_RegisterBy, hf2, h1]
    simp
  · rw [HasBy_eq]
    exact hf2

/-- C17, as stated, fails: two handler instances of one struct type at different
addresses with identical fields, both handed over by value, are not distinct
registrations; the second `Register` returns `ErrEventAlreadyRegistered`. -/
theorem identity_comparison_fails_for_values :
    ¬ (∀ (N : String) (h1 h2 : HandlerInstance) (p1 p2 : Bool),
        h1.addr ≠ h2.addr → h1.fields = h2.fields →
        DistinctRegistrations N (handedOver p1 h1) (handedOver p2 h2)) := by
  intro hall
  have hbad := (hall "test" ⟨"VH", 0, [FieldValue.num 1]⟩ ⟨"VH", 1, [FieldValue.num 1]⟩
    false false (by decide) rfl).2.1
  revert hbad
  decide

/-- C17, amended: handlers are compared with `==` on interface values.  Two handler
instances at different addresses with identical internal state are distinct
registrations under every name, except when both are handed over by value, have the same
struct type and hold no NaN field: distinct whenever one of them is handed over as a
pointer, or their types differ, or a field is NaN.  In the excepted case the two
interface values are equal and the second `Register` returns
`ErrEventAlreadyRegistered`. -/
theorem handlers_compared_by_interface_equality (N : String) (h1 h2 : HandlerInstance)
    (p1 p2 : Bool) (hdistinct : h1.addr ≠ h2.addr) (hstate : h1.fields = h2.fields) :
    (p1 = true ∨ p2 = true ∨ h1.typ ≠ h2.typ ∨ FieldValue.nan ∈ h1.fields →
      DistinctRegistrations N (handedOver p1 h1) (handedOver p2 h2)) ∧
    (p1 = false ∧ p2 = false ∧ h1.typ = h2.typ ∧ FieldValue.nan ∉ h1.fields →
      (RegisterBy goEq (RegisterBy goEq (NewEventDispatcher GoHandler) N
        (handedOver p1 h1)).1 N (handedOver p2 h2)).2
        = some Error.ErrEventAlreadyRegistered) := by
  constructor
  · intro hcase
    apply distinct_of_not_equal
    cases p1 <;> cases p2
    · rcases hcase with hp | hp | htyp | hnan
      · cases hp
      · cases hp
      · simp [handedOver, goEq, htyp]
      · simp [handedOver, goEq, fieldsEq_false_of_nan _ h2.fields hnan]
    · simp [handedOver, goEq]
    · simp [handedOver, goEq]
    · simp [handedOver, goEq, hdistinct]
  · rintro ⟨hp1, hp2, htyp, hnan⟩
    subst hp1 hp2
    have heq : goEq (handedOver false h1) (handedOver false h2) = true := by
      simp only [handedOver, Bool.false_eq_true, if_false, goEq, Bool.and_eq_true,
        decide_eq_true_eq]
      exact ⟨htyp, by rw [← hstate]; exact fieldsEq_self_of_no_nan _ hnan⟩
    have h0 : rangeFindsBy goEq (handedOver false h1)
        (index (NewEventDispatcher GoHandler).handlers N) = false := by
      rw [index_new]
      rfl
    have hfound : rangeFindsBy goEq (handedOver false h2)
        (index (RegisterBy goEq (NewEventDispatcher GoHandler) N
          (handedOver false h1)).1.handlers N) = true := by
      rw [index_RegisterBy, h0]
      simp only [if_true, Bool.false_eq_true, if_false, index_new, List.nil_append]
      exact (rangeFindsBy_iff goEq _ _).2 ⟨_, by simp, heq⟩
    rw [RegisterBy_of_found goEq _ N _ hfound]

theorem handlers_compared_by_interface_equality_witness :
    ((0 : Nat) ≠ 1 ∧ [FieldValue.num 1] = [FieldValue.num 1]) ∧
    DistinctRegistrations "test"
      (handedOver true ⟨"TestEventHandler", 0, [FieldValue.num 1]⟩)
      (handedOver true ⟨"TestEventHandler", 1, [FieldValue.num 1]⟩) ∧
    (RegisterBy goEq (RegisterBy goEq (NewEventDispatcher GoHandler) "test"
      (handedOver false ⟨"VH", 0, [FieldValue.num 1]⟩)).1 "test"
      (handedOver false ⟨"VH", 1, [FieldValue.num 1]⟩)).2
      = some Error.ErrEventAlreadyRegistered :=
  ⟨⟨by decide, rfl⟩,
   (handlers_compared_by_interface_equality "test" ⟨"TestEventHandler", 0, [FieldValue.num 1]⟩
     ⟨"TestEventHandler", 1, [FieldValue.num 1]⟩ true true (by decide) rfl).1 (Or.inl rfl),
   (handlers_compared_by_interface_equality "test" ⟨"VH", 0, [FieldValue.num 1]⟩
     ⟨"VH", 1, [FieldValue.num 1]⟩ false false (by decide) rfl).2
     ⟨rfl, rfl, rfl, by decide⟩⟩

/-! Section: Dispatch with handlers that work on the memory -/

theorem dispatchLoopIn_returns {H E : Type} (Handle : H → E → Memory H → Outcome (Memory H))
    (event : E) (rest : List H) :
    ∀ (pre : List H) (calls : List (H × E)) (m : Memory H), m.cells = pre ++ rest →
      (∀ h ∈ rest, ∀ m1 : Memory H,
        ∃ m2, Handle h event m1 = Outcome.returned m2 ∧ m2.cells = m1.cells) →
      dispatchLoopIn Handle event (List.range' pre.length rest.length) calls m
        = ⟨Completion.returned none, calls ++ rest.map (fun h => (h, event)),
            handleAll Handle event rest m⟩ := by
  induction rest with
  | nil =>
    intro pre calls m _ _
    simp [dispatchLoopIn, handleAll]
  | cons h t ih =>
    intro pre calls m hcells hret
    have hread : m.cells[pre.length]? = some h := by
      rw [hcells, List.getElem?_append_right (Nat.le_refl _)]
      simp
    obtain ⟨m2, hm2, hkeep⟩ := hret h (List.mem_cons_self _ _) ⟨m.wg + 1, m.cells, m.ed⟩
    have hcells2 : m2.cells = (pre ++ [h]) ++ t := by
      rw [hkeep]
      simp [hcells]
    have hstep := ih (pre ++ [h]) (calls ++ [(h, event)]) m2 hcells2
      (fun x hx => hret x (List.mem_cons_of_mem _ hx))
    simp only [List.length_append, List.length_singleton] at hstep
    simp only [List.length_cons, List.range'_succ, dispatchLoopIn, hread, hm2, hstep,
      handleAll, Outcome.memoryOr, List.map_cons, List.append_assoc, List.singleton_append]

theorem dispatchLoopIn_completion {H E : Type}
    (Handle : H → E → Memory H → Outcome (Memory H)) (event : E) (idxs : List Nat) :
    ∀ (calls : List (H × E)) (m : Memory H) (err : Option Error),
      (dispatchLoopIn Handle event idxs calls m).completion = Completion.returned err →
      err = none := by
  induction idxs with
  | nil =>
    intro calls m err hc
    simp only [dispatchLoopIn, Completion.returned.injEq] at hc
    exact hc.symm
  | cons i rest ih =>
    intro calls m err hc
    simp only [dispatchLoopIn] at hc
    cases hread : m.cells[i]? with
    | none => simp [hread] at hc
    | some handler =>
      simp only [hread] at hc
      cases hout : Handle handler event ⟨m.wg + 1, m.cells, m.ed⟩ with
      | returned m2 =>
        simp only [hout] at hc
        exact ih _ _ err hc
      | blocked => simp [hout] at hc
      | panicked => simp [hout] at hc

theorem dispatchLoopIn_all_return {H E : Type}
    (Handle : H → E → Memory H → Outcome (Memory H)) (event : E)
    (hall : ∀ (h : H) (m1 : Memory H),
      ∃ m2, Handle h event m1 = Outcome.returned m2 ∧ m2.cells.length = m1.cells.length)
    (idxs : List Nat) :
    ∀ (calls : List (H × E)) (m : Memory H), (∀ i ∈ idxs, i < m.cells.length) →
      (dispatchLoopIn Handle event idxs calls m).completion = Completion.returned none := by
  induction idxs with
  | nil => intro calls m _; rfl
  | cons i rest ih =>
    intro calls m hbound
    have hi : i < m.cells.length := hbound i (List.mem_cons_self _ _)
    have hread : m.cells[i]? = some (m.cells[i]) := List.getElem?_eq_getElem hi
    obtain ⟨m2, hm2, hlen⟩ := hall (m.cells[i]) ⟨m.wg + 1, m.cells, m.ed⟩
    simp only [dispatchLoopIn, hread, hm2]
    apply ih
    intro j hj
    rw [hlen]
    exact hbound j (List.mem_cons_of_mem _ hj)

theorem handleAll_liftHandle {H E : Type} (Handle : H → E → Int → Int) (event : E)
    (hs : List H) :
    ∀ (m : Memory H) (r : DispatchRun H E), r.wg = m.wg →
      (handleAll (liftHandle Handle) event hs m).wg = (dispatchLoop Handle event hs r).wg := by
  induction hs with
  | nil => intro m r hr; simp [handleAll, dispatchLoop, hr]
  | cons h t ih =>
    intro m r hr
    simp only [handleAll, dispatchLoop, liftHandle, Outcome.memoryOr]
    apply ih
    simp [hr]

/-- On handlers that return and touch only the wait-group counter, `DispatchIn` is
`Dispatch`: it returns nil, with the same `Handle` calls and the same counter. -/
theorem DispatchIn_liftHandle {H E : Type} (GetName : E → String)
    (Handle : H → E → Int → Int) (ed : EventDispatcher H) (event : E) :
    (DispatchIn GetName (liftHandle Handle) ed event).completion = Completion.returned none ∧
    (DispatchIn GetName (liftHandle Handle) ed event).calls
      = (Dispatch GetName Handle ed event).2.2.calls ∧
    (DispatchIn GetName (liftHandle Handle) ed event).memory.wg
      = (Dispatch GetName Handle ed event).2.2.wg := by
  have hret : ∀ h ∈ index ed.handlers (GetName event), ∀ m1 : Memory H,
      ∃ m2, liftHandle Handle h event m1 = Outcome.returned m2 ∧ m2.cells = m1.cells :=
    fun h _ m1 => ⟨_, rfl, rfl⟩
  have hloop := dispatchLoopIn_returns (liftHandle Handle) event
    (index ed.handlers (GetName event)) [] []
    ⟨0, index ed.handlers (GetName event), ed⟩ rfl hret
  simp only [List.length_nil, List.nil_append] at hloop
  rw [Dispatch_calls, Dispatch_snd]
  unfold DispatchIn
  split
  · rw [List.range_eq_range', hloop]
    exact ⟨rfl, rfl, handleAll_liftHandle Handle event _ _ _ rfl⟩
  · rename_i hok
    have hk : ed.handlers (GetName event) = none := by
      cases hv : ed.handlers (GetName event) with
      | none => rfl
      | some v => simp [commaOk, hv] at hok
    simp [index_of_none hk, dispatchLoop]

/-- C11, as stated, fails: with handlers `1`, `2`, `3` registered under `"test"` and
handler `1` calling `Remove("test", 1)` from inside its `Handle`, every `Handle` call
returns and `Dispatch` returns nil, but the handlers invoked are `1`, `3`, `3`: handler
`2` is never invoked and handler `3` is invoked twice. -/
theorem Dispatch_fan_out_fails_for_self_removing_handler :
    index (run id doneOnce
      [Call.register "test" 1, Call.register "test" 2, Call.register "test" 3]).handlers
      "test" = [1, 2, 3] ∧
    (DispatchIn id selfRemoving (run id doneOnce
      [Call.register "test" 1, Call.register "test" 2, Call.register "test" 3])
      "test").completion = Completion.returned none ∧
    (DispatchIn id selfRemoving (run id doneOnce
      [Call.register "test" 1, Call.register "test" 2, Call.register "test" 3])
      "test").calls = [(1, "test"), (3, "test"), (3, "test")] ∧
    (DispatchIn id selfRemoving (run id doneOnce
      [Call.register "test" 1, Call.register "test" 2, Call.register "test" 3])
      "test").calls.map Prod.fst
      ≠ index (run id doneOnce
          [Call.register "test" 1, Call.register "test" 2, Call.register "test" 3]).handlers
          "test" := by
  decide

/-- C11, amended: dispatch fan-out for handlers that return and leave the ranged-over
slice alone.  When every `Handle` call on a handler stored under `event.GetName()`
returns and does not change the elements of the array that `Dispatch` ranges over (no
`Remove` or `Register` on the dispatcher from inside `Handle`), `Dispatch(event)` returns
nil, the `Handle` calls it makes are, in order, one for each element of the slice stored
under `event.GetName()`, each receiving `event` itself, and the memory it leaves is the
one obtained by applying `Handle(event, wg)`, each after `wg.Add(1)`, to the handlers of
that slice in order. -/
theorem DispatchIn_fan_out {H E : Type} (GetName : E → String)
    (Handle : H → E → Memory H → Outcome (Memory H)) (ed : EventDispatcher H) (event : E)
    (hret : ∀ h ∈ index ed.handlers (GetName event), ∀ m1 : Memory H,
      ∃ m2, Handle h event m1 = Outcome.returned m2 ∧ m2.cells = m1.cells) :
    (DispatchIn GetName Handle ed event).completion = Completion.returned none ∧
    (DispatchIn GetName Handle ed event).calls
      = (index ed.handlers (GetName event)).map (fun h => (h, event)) ∧
    (DispatchIn GetName Handle ed event).calls.map Prod.fst
      = index ed.handlers (GetName event) ∧
    (DispatchIn GetName Handle ed event).memory
      = handleAll Handle event (index ed.handlers (GetName event))
          ⟨0, index ed.handlers (GetName event), ed⟩ := by
  have hloop := dispatchLoopIn_returns Handle event
    (index ed.handlers (GetName event)) [] []
    ⟨0, index ed.handlers (GetName event), ed⟩ rfl hret
  simp only [List.length_nil, List.nil_append] at hloop
  have hwhole : DispatchIn GetName Handle ed event
      = ⟨Completion.returned none,
          (index ed.handlers (GetName event)).map (fun h => (h, event)),
          handleAll Handle event (index ed.handlers (GetName event))
            ⟨0, index ed.handlers (GetName event), ed⟩⟩ := by
    unfold DispatchIn
    split
    · rw [List.range_eq_range', hloop]
    · rename_i hok
      have hk : ed.handlers (GetName event) = none := by
        cases hv : ed.handlers (GetName event) with
        | none => rfl
        | some v => simp [commaOk, hv] at hok
      simp [index_of_none hk, handleAll]
  rw [hwhole]
  refine ⟨rfl, rfl, ?_, rfl⟩
  simp [List.map_map, Function.comp_def]

theorem DispatchIn_fan_out_witness :
    (∀ h ∈ index (run id doneOnce
        [Call.register "test" 1, Call.register "test" 2]).handlers (id "test"),
      ∀ m1 : Memory Nat,
        ∃ m2, liftHandle doneOnce h "test" m1 = Outcome.returned m2 ∧ m2.cells = m1.cells) ∧
    (DispatchIn id (liftHandle doneOnce) (run id doneOnce
      [Call.register "test" 1, Call.register "test" 2]) "test").calls
      = (index (run id doneOnce
          [Call.register "test" 1, Call.register "test" 2]).handlers (id "test")).map
          (fun h => (h, "test")) :=
  ⟨fun _ _ _ => ⟨_, rfl, rfl⟩,
   (DispatchIn_fan_out id (liftHandle doneOnce) (run id doneOnce
      [Call.register "test" 1, Call.register "test" 2]) "test"
      (fun _ _ _ => ⟨_, rfl, rfl⟩)).2.1⟩

/-- C14, as stated, fails: `Register("test", nil)` returns nil and stores the nil
handler, and `Dispatch` of an event named `"test"` then panics on the `Handle` call
instead of returning nil. -/
theorem Dispatch_panics_on_nil_handler :
    (RegisterBy goEq (NewEventDispatcher GoHandler) "test" GoHandler.nilHandler).2 = none ∧
    index (RegisterBy goEq (NewEventDispatcher GoHandler) "test"
      GoHandler.nilHandler).1.handlers "test" = [GoHandler.nilHandler] ∧
    (DispatchIn id goHandle (RegisterBy goEq (NewEventDispatcher GoHandler) "test"
      GoHandler.nilHandler).1 "test").completion = Completion.panicked ∧
    (DispatchIn id goHandle (RegisterBy goEq (NewEventDispatcher GoHandler) "test"
      GoHandler.nilHandler).1 "test").completion ≠ Completion.returned none := by
  decide

/-- C14, amended: `Dispatch` reports success whenever it returns.  The only error value
a call of `Dispatch` returns is nil; it does return, with nil, whenever every `Handle`
call returns; and when `event.GetName()` is not a key, or maps to an empty slice, it
returns nil without reaching any `Handle` call. -/
theorem DispatchIn_reports_success {H E : Type} (GetName : E → String)
    (Handle : H → E → Memory H → Outcome (Memory H)) (ed : EventDispatcher H) (event : E) :
    (∀ err : Option Error,
      (DispatchIn GetName Handle ed event).completion = Completion.returned err →
      err = none) ∧
    ((∀ (h : H) (m1 : Memory H),
        ∃ m2, Handle h event m1 = Outcome.returned m2 ∧ m2.cells.length = m1.cells.length) →
      (DispatchIn GetName Handle ed event).completion = Completion.returned none) ∧
    (ed.handlers (GetName event) = none ∨ ed.handlers (GetName event) = some [] →
      (DispatchIn GetName Handle ed event).completion = Completion.returned none ∧
      (DispatchIn GetName Handle ed event).calls = []) := by
  refine ⟨?_, ?_, ?_⟩
  · intro err hc
    unfold DispatchIn at hc
    split at hc
    · exact dispatchLoopIn_completion Handle event _ _ _ err hc
    · simp only [Completion.returned.injEq] at hc
      exact hc.symm
  · intro hall
    unfold DispatchIn
    split
    · apply dispatchLoopIn_all_return Handle event hall
      intro i hi
      exact List.mem_range.1 hi
    · rfl
  · intro hcase
    rcases hcase with hk | hk
    · simp [DispatchIn, commaOk, hk]
    · simp [DispatchIn, commaOk, hk, index, dispatchLoopIn]

theorem DispatchIn_reports_success_witness :
    ((∀ (h : GoHandler) (m1 : Memory GoHandler),
        ∃ m2, liftHandle (fun _ _ c => c - 1) h "test" m1 = Outcome.returned m2 ∧
          m2.cells.length = m1.cells.length) ∧
      ((RegisterBy goEq (NewEventDispatcher GoHandler) "test"
          (GoHandler.pointer "TestEventHandler" 1)).1.handlers (id "unknown") = none ∨
        (RegisterBy goEq (NewEventDispatcher GoHandler) "test"
          (GoHandler.pointer "TestEventHandler" 1)).1.handlers (id "unknown") = some [])) ∧
    (DispatchIn id (liftHandle (fun _ _ c => c - 1))
      (RegisterBy goEq (NewEventDispatcher GoHandler) "test"
        (GoHandler.pointer "TestEventHandler" 1)).1 "test").completion
      = Completion.returned none ∧
    (DispatchIn id goHandle (RegisterBy goEq (NewEventDispatcher GoHandler) "test"
      (GoHandler.pointer "TestEventHandler" 1)).1 "unknown").calls = [] :=
  ⟨⟨fun _ _ => ⟨_, rfl, rfl⟩, Or.inl (by decide)⟩,
   (DispatchIn_reports_success id (liftHandle (fun _ _ c => c - 1))
     (RegisterBy goEq (NewEventDispatcher GoHandler) "test"
       (GoHandler.pointer "TestEventHandler" 1)).1 "test").2.1
     (fun _ _ => ⟨_, rfl, rfl⟩),
   ((DispatchIn_reports_success id goHandle
     (RegisterBy goEq (NewEventDispatcher GoHandler) "test"
       (GoHandler.pointer "TestEventHandler" 1)).1 "unknown").2.2
     (Or.inl (by decide))).2⟩

end Events
